import Mathlib

/-!
Shallow embedding of `src/mrbaviirc/wsgi/router.py` (class `Router` and the
trie node class `_PathSegment`), together with proofs about the routing,
registration, and reversal behaviour of that module.

Modelling conventions:
* Handlers are opaque in the source; they are modelled as `Nat` identifiers.
* Python dictionaries (`OrderedDict` included) are modelled as association
  lists with dict semantics: unique keys, replacement in place, new keys
  appended at the end, iteration in list order.
* Python exceptions are modelled as an explicit `Err` value: each `raise`
  site of the source becomes an `Except`/`Option` error result carrying the
  exact exception class and message string of the source
  (`ValueError`/`RouteError`).
* The compiled regular expressions produced by `Router._split_path` are
  modelled as token lists (`Tok`): the regex source text the code builds is
  recovered by `buildSrc`, and the regex cache maps that source text to the
  token list, mirroring how `re.compile` objects are cached and shared.
* Matching of the generated anchored regexes is implemented as a
  backtracking matcher with Python's leftmost-greedy order.  `\d` is
  modelled as ASCII digits, and `$` as end of string (the Python
  before-trailing-newline corner of `$` is outside the modelled fragment).
  User-supplied `re:`/`re*:` fragments are kept abstract: their source text
  participates in cache keys exactly as in the code, but their matching is
  not modelled (no claim evaluates a custom fragment against a path).
* `re.compile` itself can raise `re.error` (a class distinct from
  `ValueError`): for the patterns `_split_path` generates this happens
  exactly when a group name is not a valid identifier (e.g. the empty name
  of `<>`) or is defined twice in one segment, or when a caller-supplied
  `re:`/`re*:` fragment is itself invalid.  `compilePart` models this with
  `compileOk`: group names are checked as ASCII identifiers and for
  duplicates (Python's `str.isidentifier()` restricted to the ASCII
  fragment; non-ASCII names are outside the modelled fragment), while
  custom fragment bodies are assumed well-formed (their validity, like
  their matching, is not modelled — theorems about compile-time errors
  therefore carry a no-custom-fragment hypothesis).  The `re.error`
  message, which embeds parser positions, is not reproduced; `Err.reError`
  carries the offending pattern source instead.
-/

/-- Exception classes raised by the router module: `ValueError` and
`RouteError` with their exact messages, and `re.error` from `re.compile`
carrying the offending pattern source (its message is not modelled). -/
inductive Err : Type where
  | valueError (msg : String)
  | routeError (msg : String)
  | reError (pattern : String)
  deriving DecidableEq, Repr

/-- The fixed pattern families produced by `Router._parse_var`, plus the
abstract caller-supplied `re:` / `re*:` fragment. -/
inductive GroupKind : Type where
  | plain
  | int
  | float
  | path
  | custom (src : String)
  deriving DecidableEq, Repr

/-- One piece of a compiled segment regex: an escaped literal run or a
named capture group `(?P<name>...)`. -/
inductive Tok : Type where
  | lit (s : String)
  | grp (name : String) (kind : GroupKind)
  deriving DecidableEq, Repr

/-- A compiled template segment: a literal path component, or a dynamic
component `(matchall, compiled regex)` as produced by `_split_path`. -/
inductive Seg : Type where
  | static (s : String)
  | dyn (matchall : Bool) (toks : List Tok)
  deriving DecidableEq, Repr

/-- Parameter maps and group dictionaries: name-to-string mappings with
Python dict semantics. -/
abbrev Params := List (String × String)

/-- The per-router regex cache `_re_cache`: regex source text to compiled
form (modelled by the token list). -/
abbrev RegexCache := List (String × List Tok)

/-- The trie node `_PathSegment`: literal children, dynamic children keyed
by `(matchall, regex)`, and the optional terminal route. -/
inductive PathSegment : Type where
  | node (static : List (String × PathSegment))
      (dynamic : List ((Bool × List Tok) × PathSegment))
      (route : Option Nat)

/-- Literal child map of a node. -/
def PathSegment.static : PathSegment → List (String × PathSegment)
  | .node st _ _ => st

/-- Dynamic child map of a node. -/
def PathSegment.dynamic : PathSegment → List ((Bool × List Tok) × PathSegment)
  | .node _ dy _ => dy

/-- Terminal route of a node. -/
def PathSegment.route : PathSegment → Option Nat
  | .node _ _ rt => rt

/-- A freshly constructed `_PathSegment()`. -/
def emptyNode : PathSegment := .node [] [] none

/-- Dictionary lookup on an association list (first, hence unique, key). -/
def alookup {κ β : Type} [DecidableEq κ] : List (κ × β) → κ → Option β
  | [], _ => none
  | (k0, v0) :: t, k => if k0 = k then some v0 else alookup t k

/-- Dictionary store `d[k] = v`: replace in place, or append a new key. -/
def aset {κ β : Type} [DecidableEq κ] : List (κ × β) → κ → β → List (κ × β)
  | [], k, v => [(k, v)]
  | (k0, v0) :: t, k, v =>
    if k0 = k then (k0, v) :: t else (k0, v0) :: aset t k v

/-- One `d[k] = v` store on a parameter map. -/
def dictSet (d : Params) (k v : String) : Params := aset d k v

/-- Python `dict.update`: fold the updates in order into the base map. -/
def dictUpdate (base upd : Params) : Params :=
  upd.foldl (fun b kv => dictSet b kv.1 kv.2) base

/-- Characters matched by `[a-zA-Z0-9_]` in the template regexes. -/
def isNameChar (c : Char) : Bool :=
  (('a' ≤ c && c ≤ 'z') || ('A' ≤ c && c ≤ 'Z') ||
   ('0' ≤ c && c ≤ '9') || c = '_')

/-- Helper for `splitSlash`: accumulate the current component (reversed). -/
def splitAux : List Char → List Char → List String
  | [], acc => [String.mk acc.reverse]
  | c :: cs, acc =>
    if c = '/' then String.mk acc.reverse :: splitAux cs []
    else splitAux cs (c :: acc)

/-- Python `s.split("/")`: used both by `register` (via `_split_path`) and
by `route`; empty components, leading ones included, are kept. -/
def splitSlash (s : String) : List String := splitAux s.toList []

/-- Python `"/".join(l)`. -/
def joinSlash : List String → String
  | [] => ""
  | [s] => s
  | s :: t => s ++ "/" ++ joinSlash t

/-- ASCII upper-casing of a method name, as Python `str.upper` acts on the
short ASCII method tokens the router receives. -/
def toUpperStr (s : String) : String := String.mk (s.toList.map Char.toUpper)

/-- Characters escaped by Python 3.7+ `re.escape`. -/
def reSpecial : List Char :=
  ['(', ')', '[', ']', Char.ofNat 123, Char.ofNat 125, '?', '*', '+', '-',
   '|', '^', '$', '\\', '.', '&', '~', '#', ' ', '\t', '\n', '\r',
   Char.ofNat 11, Char.ofNat 12]

/-- Python `re.escape`. -/
def reEscape (s : String) : String :=
  String.mk (s.toList.foldr
    (fun c acc => if c ∈ reSpecial then '\\' :: c :: acc else c :: acc) [])

/-- Regex body generated by `_parse_var` for each pattern family. -/
def kindSrc : GroupKind → String
  | .plain => "[^\\/]+"
  | .int => "-?\\d+"
  | .float => "-?[\\d.]+"
  | .path => ".*"
  | .custom s => s

/-- Regex source text of one token, as `_split_path` builds it. -/
def pieceSrc : Tok → String
  | .lit s => reEscape s
  | .grp n k => "(?P<" ++ n ++ ">" ++ kindSrc k ++ ")"

/-- The anchored regex source `"^" + "".join(matches) + "$"` compiled and
cached by `_split_path`. -/
def buildSrc (toks : List Tok) : String :=
  "^" ++ String.join (toks.map pieceSrc) ++ "$"

/-- Scanner for `re.split("(<.*?>)", part)`: `litAcc` holds the current
literal run (reversed); `cand` holds the text after a pending `<`
(reversed).  A candidate ends at the first `>`; `.` cannot cross a newline,
so a newline turns the pending candidate into literal text, exactly as the
regex engine would fail the candidate and find no later match inside it. -/
def vsplitAux : List Char → List Char → Option (List Char) → List String
  | [], litAcc, none => [String.mk litAcc.reverse]
  | [], litAcc, some buf => [String.mk (litAcc.reverse ++ '<' :: buf.reverse)]
  | c :: cs, litAcc, none =>
    if c = '<' then vsplitAux cs litAcc (some [])
    else vsplitAux cs (c :: litAcc) none
  | c :: cs, litAcc, some buf =>
    if c = '>' then
      String.mk litAcc.reverse ::
        String.mk ('<' :: buf.reverse ++ ['>']) :: vsplitAux cs [] none
    else if c = '\n' then
      vsplitAux cs ('\n' :: buf ++ '<' :: litAcc) none
    else vsplitAux cs litAcc (some (c :: buf))

/-- `list(i for i in _VAR_SPLIT_RE.split(part) if i)`: the interleaved
literal runs and `<...>` captures of a segment, blanks stripped. -/
def varSplit (part : String) : List String :=
  (vsplitAux part.toList [] none).filter (fun p => p ≠ "")

/-- The source's dynamic-piece test `match[0:1] == "<" and match[-1:] == ">"`. -/
def pieceIsVar (p : String) : Bool :=
  p.toList.head? = some '<' && p.toList.getLast? = some '>'

/-- `match[1:-1]`: the text of a placeholder without its angle brackets. -/
def varInner (p : String) : String := String.mk (p.toList.drop 1).dropLast

/-- Helper for `part.split(":", 1)`: name characters before the first
colon (reversed accumulator) and the remainder after it. -/
def sfcAux : List Char → List Char → Option (List Char × String)
  | [], _ => none
  | c :: cs, acc =>
    if c = ':' then some (acc.reverse, String.mk cs) else sfcAux cs (c :: acc)

/-- `part.split(":", 1)` of `_parse_var`, as an optional (name, vartype). -/
def splitFirstColon (cs : List Char) : Option (List Char × String) :=
  sfcAux cs []

/-- Type dispatch of `_parse_var` once a `vartype` annotation is present. -/
def parseVarType (name : String) (vt : String) : Except Err (Bool × Tok) :=
  if vt = "int" then .ok (false, .grp name .int)
  else if vt = "float" then .ok (false, .grp name .float)
  else if vt = "path" then .ok (true, .grp name .path)
  else
    match vt.toList with
    | 'r' :: 'e' :: ':' :: rest => .ok (false, .grp name (.custom (String.mk rest)))
    | 'r' :: 'e' :: '*' :: ':' :: rest => .ok (true, .grp name (.custom (String.mk rest)))
    | _ => .error (.valueError ("Unknown route filter: " ++ vt))

/-- `Router._parse_var`: parse the text between `<` and `>` into the
`(matchall, (?P<name>regex))` pair, modelled as `(matchall, token)`. -/
def parseVar (s : String) : Except Err (Bool × Tok) :=
  match splitFirstColon s.toList with
  | none => .ok (false, .grp s .plain)
  | some (nameCs, vt) => parseVarType (String.mk nameCs) vt

/-- The message of the `poffset` matchall check in `_split_path`. -/
def matchallMsg1 : String :=
  "Match all filter should only be the last part of the last component"

/-- The message of the `moffset` matchall check in `_split_path`. -/
def matchallMsg2 : String :=
  "match all filter should only be the last part of the last component"

/-- The per-piece loop of `_split_path` over one segment's split pieces:
parse each placeholder, enforce the matchall-position checks in source
order (`poffset` first, then `moffset`), escape literal runs, and
accumulate the matchall flag and the token list. -/
def compilePieces : List String → Bool → Except Err (Bool × List Tok)
  | [], _ => .ok (false, [])
  | p :: rest, lastPart =>
    if pieceIsVar p then
      match parseVar (varInner p) with
      | .error e => .error e
      | .ok (ma, tok) =>
        if ma then
          if !lastPart then .error (.valueError matchallMsg1)
          else if !rest.isEmpty then .error (.valueError matchallMsg2)
          else
            match compilePieces rest lastPart with
            | .error e => .error e
            | .ok (ma2, toks) => .ok (ma || ma2, tok :: toks)
        else
          match compilePieces rest lastPart with
          | .error e => .error e
          | .ok (ma2, toks) => .ok (ma || ma2, tok :: toks)
    else
      match compilePieces rest lastPart with
      | .error e => .error e
      | .ok (ma2, toks) => .ok (ma2, .lit p :: toks)

/-- A valid Python identifier, restricted to the ASCII fragment: the
group-name check `re.compile` performs via `str.isidentifier()`. -/
def validIdent (s : String) : Bool :=
  match s.toList with
  | [] => false
  | c :: cs => (c.isAlpha || c = '_') && cs.all fun c2 => c2.isAlphanum || c2 = '_'

/-- No name occurs twice (the `redefinition of group name` check). -/
def noDupNames : List String → Bool
  | [] => true
  | n :: t => !(t.contains n) && noDupNames t

/-- The group names of a compiled pattern, in order of appearance. -/
def groupNames : List Tok → List String
  | [] => []
  | .lit _ :: t => groupNames t
  | .grp n _ :: t => n :: groupNames t

/-- Whether `re.compile` accepts the generated pattern: every group name a
valid identifier and no name defined twice.  Custom `re:`/`re*:` fragment
bodies are assumed well-formed (outside the modelled fragment). -/
def compileOk (toks : List Tok) : Bool :=
  (groupNames toks).all validIdent && noDupNames (groupNames toks)

/-- Compile one segment of a template: static fast path when no piece is a
placeholder, otherwise build the anchored regex and intern it in the cache
(`_re_cache`).  A cache hit reuses the already-compiled object without
calling `re.compile` again; on a miss `re.compile` may raise `re.error`
(modelled by `compileOk`), and nothing is cached in that case. -/
def compilePart (cache : RegexCache) (part : String) (lastPart : Bool) :
    Except Err (Seg × RegexCache) :=
  let pieces := varSplit part
  match compilePieces pieces lastPart with
  | .error e => .error e
  | .ok (ma, toks) =>
    if pieces.any pieceIsVar then
      let src := buildSrc toks
      match alookup cache src with
      | some ctoks => .ok (.dyn ma ctoks, cache)
      | none =>
        if compileOk toks then .ok (.dyn ma toks, cache ++ [(src, toks)])
        else .error (.reError src)
    else .ok (.static part, cache)

/-- The segment loop of `_split_path`: compile each component in order,
threading the regex cache; the first raised error aborts, keeping the
cache updates of the components already processed (the source's
`self._re_cache` mutations before the raise). -/
def splitPathAux (cache : RegexCache) :
    List String → RegexCache × Except Err (List Seg)
  | [] => (cache, .ok [])
  | part :: rest =>
    match compilePart cache part rest.isEmpty with
    | .error e => (cache, .error e)
    | .ok (seg, cache') =>
      match splitPathAux cache' rest with
      | (cache'', .error e) => (cache'', .error e)
      | (cache'', .ok segs) => (cache'', .ok (seg :: segs))

/-- `Router._split_path`: split on `/` (leading blanks kept) and compile
each component. -/
def splitPath (cache : RegexCache) (path : String) :
    RegexCache × Except Err (List Seg) :=
  splitPathAux cache (splitSlash path)

/-- All splits of `cs` into `(pre, suf)` where every character of `pre`
satisfies `p`, in increasing length of `pre` (the empty split first). -/
def prefRuns (p : Char → Bool) : List Char → List (List Char × List Char)
  | [] => [([], [])]
  | c :: cs =>
    ([], c :: cs) ::
      (if p c then (prefRuns p cs).map (fun pr => (c :: pr.1, pr.2)) else [])

/-- Greedy candidate matches of one pattern family against a prefix of the
candidate text, in Python's backtracking order (longest first; `+`
families require a nonempty prefix, `-?` prefers to consume the minus). -/
def kindSplits : GroupKind → List Char → List (List Char × List Char)
  | .plain, cs => ((prefRuns (fun c => c ≠ '/') cs).filter (fun pr => !pr.1.isEmpty)).reverse
  | .int, cs =>
    match cs with
    | '-' :: cs' =>
      (((prefRuns Char.isDigit cs').filter (fun pr => !pr.1.isEmpty)).map
        (fun pr => ('-' :: pr.1, pr.2))).reverse
    | _ => ((prefRuns Char.isDigit cs).filter (fun pr => !pr.1.isEmpty)).reverse
  | .float, cs =>
    match cs with
    | '-' :: cs' =>
      (((prefRuns (fun c => c.isDigit || c = '.') cs').filter
          (fun pr => !pr.1.isEmpty)).map (fun pr => ('-' :: pr.1, pr.2))).reverse
    | _ =>
      ((prefRuns (fun c => c.isDigit || c = '.') cs).filter
        (fun pr => !pr.1.isEmpty)).reverse
  | .path, cs => (prefRuns (fun c => c ≠ '\n') cs).reverse
  | .custom _, _ => []

/-- Strip a literal run from the front of the candidate text. -/
def stripLead : List Char → List Char → Option (List Char)
  | [], cs => some cs
  | _ :: _, [] => none
  | p :: ps, c :: cs => if p = c then stripLead ps cs else none

/-- Backtracking matcher for the generated anchored regexes, with fuel
(`toks.length + 1` always suffices): match the token sequence against the
whole candidate, accumulating the group dictionary, trying group widths in
greedy order and taking the first full match — Python's
leftmost-greedy match semantics for these patterns. -/
def matchToksF : Nat → List Tok → List Char → Params → Option Params
  | 0, _, _, _ => none
  | _ + 1, [], cs, acc => if cs.isEmpty then some acc else none
  | fuel + 1, .lit s :: rest, cs, acc =>
    match stripLead s.toList cs with
    | some cs' => matchToksF fuel rest cs' acc
    | none => none
  | fuel + 1, .grp n k :: rest, cs, acc =>
    (kindSplits k cs).findSome?
      (fun pr => matchToksF fuel rest pr.2 (dictSet acc n (String.mk pr.1)))

/-- `regex.match(matchpart)` for an interned anchored regex: the group
dictionary of the first (greedy) full match, or `none`. -/
def regexMatch (toks : List Tok) (s : String) : Option Params :=
  matchToksF (toks.length + 1) toks s.toList []

/-- One iteration of the dynamic loop in `_PathSegment.find_match`: build
the candidate text (all remaining parts joined for a matchall edge, else
the current part), match the edge's regex, and on a match recurse into the
child with a fresh copy of the parameter map extended by the matched
groups.  `none` covers both a failed regex match and a failed sub-search. -/
def attemptDyn (rec : PathSegment → List String → Params → Option (Nat × Params))
    (e : (Bool × List Tok) × PathSegment) (part : String) (rest : List String)
    (params : Params) : Option (Nat × Params) :=
  let matchpart := if e.1.1 then joinSlash (part :: rest) else part
  match regexMatch e.1.2 matchpart with
  | some gd => rec e.2 (if e.1.1 then [] else rest) (dictUpdate params gd)
  | none => none

/-- The dynamic loop of `find_match`: try each dynamic edge in
registration order; a failed attempt falls through to the next sibling
with the caller's original parameter map. -/
def tryDynamic (rec : PathSegment → List String → Params → Option (Nat × Params)) :
    List ((Bool × List Tok) × PathSegment) → String → List String → Params →
    Option (Nat × Params)
  | [], _, _, _ => none
  | e :: dyn, part, rest, params =>
    match attemptDyn rec e part rest params with
    | some result => some result
    | none => tryDynamic rec dyn part rest params

/-- `_PathSegment.find_match`, with fuel (`parts.length + 1` always
suffices, since every recursive call either shortens `parts` or sets it to
`[]`): at the end of the path succeed only on a terminal node; otherwise
try the literal child first, then the dynamic edges in order. -/
def findMatch : Nat → PathSegment → List String → Params → Option (Nat × Params)
  | 0, _, _, _ => none
  | _ + 1, seg, [], params =>
    match seg.route with
    | some r => some (r, params)
    | none => none
  | fuel + 1, seg, part :: rest, params =>
    match
      (match alookup seg.static part with
       | some child => findMatch fuel child rest params
       | none => none) with
    | some result => some result
    | none => tryDynamic (findMatch fuel) seg.dynamic part rest params

/-- The trie-insertion walk of `Router.register`: `setdefault` along the
compiled segments, then set the terminal route (overwriting any previous
handler at that exact node). -/
def insertPath : PathSegment → List Seg → Nat → PathSegment
  | .node st dy _, [], r => .node st dy (some r)
  | .node st dy rt, .static s :: rest, r =>
    .node (aset st s (insertPath ((alookup st s).getD emptyNode) rest r)) dy rt
  | .node st dy rt, .dyn m toks :: rest, r =>
    .node st
      (aset dy (m, toks) (insertPath ((alookup dy (m, toks)).getD emptyNode) rest r))
      rt

/-- The `Router` state: per-method tries (`_routes`), the name table
(`_named`), and the per-instance regex cache (`_re_cache`). -/
structure Router : Type where
  routes : List (String × PathSegment)
  named : List (String × List (String × String))
  reCache : RegexCache

/-- `Router()`. -/
def Router.new : Router := ⟨[], [], []⟩

/-- Scanner for `_NAMED_STRIP_RE.sub("<\\1>", path)`: rewrite every
`<name[:type]>` occurrence (nonempty `[a-zA-Z0-9_]+` name, optional
nonempty `[^>]+` annotation) to the bare `<name>`.  `stAnno` carries the
pending name once a colon was seen. -/
def nstripAux : List Char → Option (List Char) → Option (List Char × List Char) → List Char
  | [], none, none => []
  | [], some buf, none => '<' :: buf.reverse
  | [], none, some (nb, ab) => '<' :: nb.reverse ++ ':' :: ab.reverse
  | [], some _, some _ => []
  | c :: cs, none, none =>
    if c = '<' then nstripAux cs (some []) none
    else c :: nstripAux cs none none
  | c :: cs, some buf, none =>
    if isNameChar c then nstripAux cs (some (c :: buf)) none
    else if c = '>' && !buf.isEmpty then
      '<' :: buf.reverse ++ '>' :: nstripAux cs none none
    else if c = ':' && !buf.isEmpty then nstripAux cs none (some (buf, []))
    else if c = '<' then '<' :: buf.reverse ++ nstripAux cs (some []) none
    else '<' :: buf.reverse ++ c :: nstripAux cs none none
  | c :: cs, none, some (nb, ab) =>
    if c = '>' then
      if ab.isEmpty then '<' :: nb.reverse ++ ':' :: '>' :: nstripAux cs none none
      else '<' :: nb.reverse ++ '>' :: nstripAux cs none none
    else nstripAux cs none (some (nb, c :: ab))
  | _ :: _, some _, some _ => []

/-- The normalized template stored in the name table by `register`. -/
def namedStrip (s : String) : String := String.mk (nstripAux s.toList none none)

/-- `Router.register(path, route, name, method)`: returns the router after
the call together with the raised exception, if any.  As in the source,
the per-method trie entry is created before the template is compiled, and
regex-cache insertions made before a raise are kept. -/
def Router.register (r : Router) (path : String) (route : Nat)
    (name : Option String) (method : String) : Router × Option Err :=
  let m := toUpperStr method
  let root := (alookup r.routes m).getD emptyNode
  match splitPath r.reCache path with
  | (cache', .error e) =>
    ({ routes := aset r.routes m root, named := r.named, reCache := cache' }, some e)
  | (cache', .ok segs) =>
    let root' := insertPath root segs route
    let routes' := aset r.routes m root'
    let named' :=
      match name with
      | none => r.named
      | some n =>
        aset r.named m (aset ((alookup r.named m).getD []) n (namedStrip path))
    ({ routes := routes', named := named', reCache := cache' }, none)

/-- `Router.route(path, method)`: `None` when the method has no trie or
the backtracking search finds no terminal, the `(route, params)` pair
otherwise. -/
def Router.route (r : Router) (path : String) (method : String) :
    Option (Nat × Params) :=
  let m := toUpperStr method
  let parts := splitSlash path
  match alookup r.routes m with
  | none => none
  | some root => findMatch (parts.length + 2) root parts []

/-- Scanner for `_NAMED_REPLACE_RE.sub(subfn, template)`: replace each
`<name>` (nonempty `[a-zA-Z0-9_]+` name) by the parameter value, raising
`RouteError` on the first name absent from `params`. -/
def nreplAux (params : Params) : List Char → Option (List Char) → Except Err (List Char)
  | [], none => .ok []
  | [], some buf => .ok ('<' :: buf.reverse)
  | c :: cs, none =>
    if c = '<' then nreplAux params cs (some [])
    else
      match nreplAux params cs none with
      | .error e => .error e
      | .ok t => .ok (c :: t)
  | c :: cs, some buf =>
    if isNameChar c then nreplAux params cs (some (c :: buf))
    else if c = '>' && !buf.isEmpty then
      let k := String.mk buf.reverse
      match alookup params k with
      | some v =>
        match nreplAux params cs none with
        | .error e => .error e
        | .ok t => .ok (v.toList ++ t)
      | none => .error (.routeError ("No parameter for named path: " ++ k))
    else if c = '<' then
      match nreplAux params cs (some []) with
      | .error e => .error e
      | .ok t => .ok ('<' :: buf.reverse ++ t)
    else
      match nreplAux params cs none with
      | .error e => .error e
      | .ok t => .ok ('<' :: buf.reverse ++ c :: t)

/-- The placeholder substitution performed by `Router.get`. -/
def namedReplace (tmpl : String) (params : Params) : Except Err String :=
  match nreplAux params tmpl.toList none with
  | .error e => .error e
  | .ok cs => .ok (String.mk cs)

/-- `Router.get(name, params, method)`. -/
def Router.get (r : Router) (name : String) (params : Params)
    (method : String) : Except Err String :=
  let m := toUpperStr method
  match alookup r.named m with
  | none => .error (.routeError ("No such named path: " ++ name))
  | some tbl =>
    match alookup tbl name with
    | none => .error (.routeError ("No such named path: " ++ name))
    | some tmpl => namedReplace tmpl params

/-- One recorded `register` call, for reasoning about arbitrary
registration sequences. -/
structure RegCall : Type where
  path : String
  route : Nat
  name : Option String
  method : String

/-- A router built from `Router()` by a sequence of `register` calls (the
router state after each call is kept, whether or not the call raised). -/
def buildRouter (calls : List RegCall) : Router :=
  calls.foldl (fun r c => (Router.register r c.path c.route c.name c.method).1)
    Router.new

/-! ### Concrete routers used by several claims (the spec's running example) -/

/-- The running example after `register("/c/d/<name:int>/<subname>", h1)`. -/
def routerA1 : Router :=
  (Router.register Router.new "/c/d/<name:int>/<subname>" 1 none "GET").1

/-- ... after additionally `register("/c/d/<name>", h2)`. -/
def routerA2 : Router := (Router.register routerA1 "/c/d/<name>" 2 none "GET").1

/-- ... after additionally `register("/c/d/<name>/<path:path>", h3, name="t")`. -/
def routerA3 : Router :=
  (Router.register routerA2 "/c/d/<name>/<path:path>" 3 (some "t") "GET").1

/-- ... after additionally `register("/c/d/<name:int>", h3b)`. -/
def routerA4 : Router := (Router.register routerA3 "/c/d/<name:int>" 4 none "GET").1

/-- Claim C1: backtracking precedence of lookup.  On the router holding
the three registrations, `route("/c/d/37/test")` finds `h1` with
parameters `name := "37"`, `subname := "test"`; `route("/c/d/38")` finds
`h2` with `name := "38"` because the earlier `int` branch has no terminal
at depth 1; and after `register("/c/d/<name:int>", h3b)` the same lookup
finds `h3b`, the dynamic `int` node having been shared rather than
duplicated.  Handlers `h1, h2, h3, h3b` are the identifiers `1, 2, 3, 4`. -/
theorem claim_c1 :
    Router.route routerA3 "/c/d/37/test" "GET" =
      some (1, [("name", "37"), ("subname", "test")]) ∧
    Router.route routerA3 "/c/d/38" "GET" = some (2, [("name", "38")]) ∧
    Router.route routerA4 "/c/d/38" "GET" = some (4, [("name", "38")]) := by
  refine ⟨?_, ?_, ?_⟩ <;> rfl

/-- Claim C7: reversal round-trip and unknown-name failure.  With the
route registered under name `"t"` from template `"/c/d/<name>/<path:path>"`,
`get("t", {"name": "smith", "path": "nothing/here"})` yields
`"/c/d/smith/nothing/here"` — the normalized template (annotations
stripped) with each bare placeholder replaced by the parameter value — and
`get` of a never-registered name fails with the router's route-lookup
error (`RouteError("No such named path: ...")`, the source's realisation
of the spec's `RouteNotFoundError`). -/
theorem claim_c7 :
    alookup ((alookup routerA3.named "GET").getD []) "t" = some "/c/d/<name>/<path>" ∧
    Router.get routerA3 "t" [("name", "smith"), ("path", "nothing/here")] "GET" =
      .ok "/c/d/smith/nothing/here" ∧
    Router.get routerA3 "unknown_name" [] "GET" =
      .error (.routeError "No such named path: unknown_name") := by
  refine ⟨?_, ?_, ?_⟩ <;> rfl

/-- The dynamic loop only queries its sub-search on the children with the
matchall-adjusted remainder: equal sub-searches give equal loops. -/
theorem tryDynamic_congr
    (rec1 rec2 : PathSegment → List String → Params → Option (Nat × Params))
    (part : String) (rest : List String) :
    ∀ (dy : List ((Bool × List Tok) × PathSegment)) (params : Params),
      (∀ e ∈ dy, ∀ params2,
        rec1 e.2 (if e.1.1 then [] else rest) params2 =
          rec2 e.2 (if e.1.1 then [] else rest) params2) →
      tryDynamic rec1 dy part rest params = tryDynamic rec2 dy part rest params := by
  intro dy
  induction dy with
  | nil => intro params _; rfl
  | cons e dyn ih =>
    intro params h
    have hatt : attemptDyn rec1 e part rest params =
        attemptDyn rec2 e part rest params := by
      simp only [attemptDyn]
      cases regexMatch e.1.2 (if e.1.1 then joinSlash (part :: rest) else part) with
      | some gd => exact h e (List.mem_cons_self e dyn) (dictUpdate params gd)
      | none => rfl
    simp only [tryDynamic, hatt]
    cases attemptDyn rec2 e part rest params with
    | some r => rfl
    | none => exact ih params fun e2 he2 => h e2 (List.mem_cons_of_mem e he2)

/-- Fuel irrelevance of the search: any fuel beyond the number of path
components gives the same result, because every recursive call of
`find_match` either drops one component or empties them.  The source's
unbounded recursion is therefore captured exactly, and a `none` result is
a genuine fall-through of all branches, never a fuel artifact. -/
theorem findMatch_fuel_stable :
    ∀ (fuel1 fuel2 : Nat) (seg : PathSegment) (parts : List String)
      (params : Params), parts.length < fuel1 → parts.length < fuel2 →
      findMatch fuel1 seg parts params = findMatch fuel2 seg parts params := by
  intro fuel1
  induction fuel1 with
  | zero => intro fuel2 seg parts params h1 _; exact absurd h1 (Nat.not_lt_zero _)
  | succ f1 ih =>
    intro fuel2 seg parts params h1 h2
    cases fuel2 with
    | zero => exact absurd h2 (Nat.not_lt_zero _)
    | succ f2 =>
      cases parts with
      | nil => rfl
      | cons p rest =>
        have hr1 : rest.length < f1 := by
          simpa using Nat.lt_of_succ_lt_succ h1
        have hr2 : rest.length < f2 := by
          simpa using Nat.lt_of_succ_lt_succ h2
        simp only [findMatch]
        have hst : (match alookup seg.static p with
            | some child => findMatch f1 child rest params
            | none => none) =
            (match alookup seg.static p with
            | some child => findMatch f2 child rest params
            | none => none) := by
          cases alookup seg.static p with
          | some child => exact ih f2 child rest params hr1 hr2
          | none => rfl
        rw [hst]
        cases (match alookup seg.static p with
            | some child => findMatch f2 child rest params
            | none => none) with
        | some r => rfl
        | none =>
          refine tryDynamic_congr (findMatch f1) (findMatch f2) p rest
            seg.dynamic params ?_
          intro e _ params2
          by_cases hma : e.1.1 = true
          · simp only [if_pos hma]
            exact ih f2 e.2 [] params2 (Nat.lt_of_le_of_lt (Nat.zero_le _) hr1)
              (Nat.lt_of_le_of_lt (Nat.zero_le _) hr2)
          · simp only [if_neg hma]
            exact ih f2 e.2 rest params2 hr1 hr2

/-- Claim C3: lookup failure is a result value, never an exception.  The
codomain of `Router.route` is an option — the embedding of the source's
`return None`; `find_match` has no raise site, so its backtracking
failures are plain `None` results.  Both failure cases produce the very
same `none`: a method with no trie at all, and a trie in which the search
finds no terminal.  The third conjunct pins the embedding to the source's
unbounded recursion: the result is the same under every sufficient fuel,
so the `none` of a failed search is the genuine exhaustion of all static
and dynamic branches, not an artifact of the bound. -/
theorem claim_c3 (r : Router) (path method : String) :
    (alookup r.routes (toUpperStr method) = none →
      Router.route r path method = none) ∧
    (∀ root, alookup r.routes (toUpperStr method) = some root →
      findMatch ((splitSlash path).length + 2) root (splitSlash path) [] = none →
      Router.route r path method = none) ∧
    (∀ root fuel, alookup r.routes (toUpperStr method) = some root →
      (splitSlash path).length < fuel →
      Router.route r path method = findMatch fuel root (splitSlash path) []) := by
  refine ⟨?_, ?_, ?_⟩
  · intro h
    simp only [Router.route, h]
  · intro root h hf
    simp only [Router.route, h, hf]
  · intro root fuel h hfuel
    simp only [Router.route, h]
    exact findMatch_fuel_stable ((splitSlash path).length + 2) fuel root
      (splitSlash path) [] (by omega) hfuel

/-- Witness for C3: both not-found cases on concrete routers, and the
fuel-independence of the failed search at an ample concrete fuel. -/
theorem claim_c3_witness :
    Router.route Router.new "/x" "GET" = none ∧
    Router.route routerA3 "/c/e" "GET" = none ∧
    Router.route routerA3 "/c/e" "GET" =
      findMatch 50 ((alookup routerA3.routes "GET").getD emptyNode)
        (splitSlash "/c/e") [] := by
  refine ⟨?_, ?_, ?_⟩
  · exact (claim_c3 Router.new "/x" "GET").1 rfl
  · exact (claim_c3 routerA3 "/c/e" "GET").2.1
      ((alookup routerA3.routes "GET").getD emptyNode) rfl rfl
  · exact (claim_c3 routerA3 "/c/e" "GET").2.2
      ((alookup routerA3.routes "GET").getD emptyNode) 50 rfl (by decide)

/-- Claim C6: parameter-map isolation during backtracking.  First: a
dynamic-edge attempt that fails — whether the regex does not match or the
sub-search below the child finds no terminal — leaves no trace at all: the
search over the remaining siblings proceeds from the caller's original
parameter map, so no binding produced inside the failed branch can appear
in a result found through a sibling.  Second: a successful regex match
explores the child with `dict(params)` updated by the matched groups — a
fresh map derived from, and never mutating, the caller's. -/
theorem claim_c6
    (rec : PathSegment → List String → Params → Option (Nat × Params))
    (e : (Bool × List Tok) × PathSegment) (dyn : List ((Bool × List Tok) × PathSegment))
    (part : String) (rest : List String) (params : Params) :
    (attemptDyn rec e part rest params = none →
      tryDynamic rec (e :: dyn) part rest params =
        tryDynamic rec dyn part rest params) ∧
    (∀ gd, regexMatch e.1.2 (if e.1.1 then joinSlash (part :: rest) else part) =
        some gd →
      attemptDyn rec e part rest params =
        rec e.2 (if e.1.1 then [] else rest) (dictUpdate params gd)) := by
  constructor
  · intro h
    simp only [tryDynamic, h]
  · intro gd h
    simp only [attemptDyn, h]

/-- A sub-search that always fails, for exercising the frame lemma. -/
def noRec : PathSegment → List String → Params → Option (Nat × Params) :=
  fun _ _ _ => none

/-- A sub-search returning its parameter map, for exercising the merge. -/
def paramRec : PathSegment → List String → Params → Option (Nat × Params) :=
  fun _ _ p => some (9, p)

/-- Witness for C6: a concrete failed attempt (an `int` edge against a
non-numeric segment) is skipped with the sibling search unchanged, and a
concrete successful match recurses on the updated copy of the map. -/
theorem claim_c6_witness :
    tryDynamic noRec
        (((false, [Tok.grp "name" .int]), emptyNode) :: []) "abc" [] [("k", "v")] =
      tryDynamic noRec [] "abc" [] [("k", "v")] ∧
    attemptDyn paramRec
        ((false, [Tok.grp "name" .int]), emptyNode) "37" [] [] =
      paramRec emptyNode [] (dictUpdate [] [("name", "37")]) := by
  constructor
  · exact (claim_c6 noRec ((false, [Tok.grp "name" .int]), emptyNode)
      [] "abc" [] [("k", "v")]).1 rfl
  · exact (claim_c6 paramRec
      ((false, [Tok.grp "name" .int]), emptyNode) [] "37" [] []).2 [("name", "37")] rfl

/-! ### Association-list dictionary lemmas -/

/-- Storing under `k` makes `k` found with the stored value. -/
theorem alookup_aset_self {κ β : Type} [DecidableEq κ]
    (l : List (κ × β)) (k : κ) (v : β) : alookup (aset l k v) k = some v := by
  induction l with
  | nil => simp [aset, alookup]
  | cons h t ih =>
    obtain ⟨k0, v0⟩ := h
    by_cases hk : k0 = k
    · simp [aset, alookup, hk]
    · simp [aset, alookup, hk, ih]

/-- Storing under `k` leaves every other key's lookup unchanged. -/
theorem alookup_aset_ne {κ β : Type} [DecidableEq κ]
    (l : List (κ × β)) (k k' : κ) (v : β) (h : k' ≠ k) :
    alookup (aset l k v) k' = alookup l k' := by
  induction l with
  | nil => simp [aset, alookup, Ne.symm h]
  | cons h0 t ih =>
    obtain ⟨k0, v0⟩ := h0
    by_cases hk : k0 = k
    · subst hk
      simp [aset, alookup, Ne.symm h]
    · simp only [aset, if_neg hk, alookup]
      by_cases hk' : k0 = k'
      · simp [hk']
      · simp [hk', ih]

/-- A found key-value pair is a member of the list. -/
theorem alookup_mem {κ β : Type} [DecidableEq κ]
    (l : List (κ × β)) (k : κ) (v : β) (h : alookup l k = some v) : (k, v) ∈ l := by
  induction l with
  | nil => simp [alookup] at h
  | cons h0 t ih =>
    obtain ⟨k0, v0⟩ := h0
    by_cases hk : k0 = k
    · subst hk
      simp [alookup] at h
      simp [h]
    · simp only [alookup, if_neg hk] at h
      exact List.mem_cons_of_mem _ (ih h)

/-- A failed lookup means the key is absent. -/
theorem alookup_eq_none {κ β : Type} [DecidableEq κ]
    (l : List (κ × β)) (k : κ) (h : alookup l k = none) :
    k ∉ l.map Prod.fst := by
  induction l with
  | nil => simp
  | cons h0 t ih =>
    obtain ⟨k0, v0⟩ := h0
    by_cases hk : k0 = k
    · simp [alookup, hk] at h
    · simp only [alookup, if_neg hk] at h
      simp only [List.map_cons, List.mem_cons]
      push_neg
      exact ⟨Ne.symm hk, ih h⟩

/-- Lookup distributes over append: the front list wins. -/
theorem alookup_append {κ β : Type} [DecidableEq κ]
    (l l' : List (κ × β)) (k : κ) :
    alookup (l ++ l') k = ((alookup l k).rec (alookup l' k) fun v => some v) := by
  induction l with
  | nil => simp [alookup]
  | cons h0 t ih =>
    obtain ⟨k0, v0⟩ := h0
    by_cases hk : k0 = k
    · simp [alookup, hk]
    · simp [alookup, hk, ih]

/-- Members of a stored list: the stored pair or an original member. -/
theorem mem_aset {κ β : Type} [DecidableEq κ]
    (l : List (κ × β)) (k : κ) (v : β) (e : κ × β) (h : e ∈ aset l k v) :
    e = (k, v) ∨ e ∈ l := by
  induction l with
  | nil => simp [aset] at h; simp [h]
  | cons h0 t ih =>
    obtain ⟨k0, v0⟩ := h0
    by_cases hk : k0 = k
    · subst hk
      simp only [aset, if_pos rfl] at h
      rcases List.mem_cons.mp h with h | h
      · exact .inl h
      · exact .inr (List.mem_cons_of_mem _ h)
    · simp only [aset, if_neg hk] at h
      rcases List.mem_cons.mp h with h | h
      · exact .inr (by simp [h])
      · rcases ih h with h | h
        · exact .inl h
        · exact .inr (List.mem_cons_of_mem _ h)

/-! ### Claim C9: literal templates round-trip -/

/-- A static-only segment list is found again by `find_match` after
insertion: the literal chain created by `setdefault` is walked first and
ends at the freshly set terminal, with the parameter map untouched. -/
theorem findMatch_insert_static (parts : List String) :
    ∀ (node : PathSegment) (rt : Nat) (params : Params) (fuel : Nat),
      parts.length < fuel →
      findMatch fuel (insertPath node (parts.map Seg.static) rt) parts params =
        some (rt, params) := by
  induction parts with
  | nil =>
    intro node rt params fuel hf
    match fuel, hf with
    | fuel + 1, _ =>
      cases node with
      | node st dy rt0 => simp [insertPath, findMatch, PathSegment.route]
  | cons p rest ih =>
    intro node rt params fuel hf
    match fuel, hf with
    | fuel + 1, hf =>
      cases node with
      | node st dy rt0 =>
        simp only [List.map_cons, insertPath, findMatch, PathSegment.static,
          alookup_aset_self]
        rw [ih _ rt params fuel (Nat.lt_of_succ_lt_succ hf)]

/-- With no placeholder piece, `compilePieces` cannot fail and reports no
matchall. -/
theorem compilePieces_static (pieces : List String) (lastPart : Bool)
    (h : pieces.any pieceIsVar = false) :
    ∃ toks, compilePieces pieces lastPart = .ok (false, toks) := by
  induction pieces with
  | nil => exact ⟨[], rfl⟩
  | cons p rest ih =>
    simp only [List.any_cons, Bool.or_eq_false_iff] at h
    obtain ⟨toks, htoks⟩ := ih h.2
    exact ⟨.lit p :: toks, by simp [compilePieces, h.1, htoks]⟩

/-- An all-static template compiles to its own components, leaving the
regex cache untouched. -/
theorem splitPathAux_static (parts : List String) :
    ∀ cache : RegexCache,
      (parts.all fun part => !((varSplit part).any pieceIsVar)) = true →
      splitPathAux cache parts = (cache, .ok (parts.map Seg.static)) := by
  induction parts with
  | nil => intro cache _; rfl
  | cons p rest ih =>
    intro cache h
    simp only [List.all_cons, Bool.and_eq_true, Bool.not_eq_true'] at h
    obtain ⟨toks, htoks⟩ := compilePieces_static (varSplit p) rest.isEmpty h.1
    have hrest := ih cache (by simpa using h.2)
    simp [splitPathAux, compilePart, htoks, h.1, hrest]

/-- Claim C9: for every template with no placeholder in any of its
components, registering it and then looking up the exact same literal
string (same method) raises nothing and returns the registered handler
with an empty parameter map — on any starting router state. -/
theorem claim_c9 (r : Router) (tmpl : String) (rt : Nat) (method : String)
    (h : ((splitSlash tmpl).all fun part => !((varSplit part).any pieceIsVar)) = true) :
    (Router.register r tmpl rt none method).2 = none ∧
    Router.route (Router.register r tmpl rt none method).1 tmpl method =
      some (rt, []) := by
  have hsplit := splitPathAux_static (splitSlash tmpl) r.reCache h
  constructor
  · simp [Router.register, splitPath, hsplit]
  · simp only [Router.register, splitPath, hsplit, Router.route]
    rw [alookup_aset_self]
    exact findMatch_insert_static (splitSlash tmpl) _ rt [] _ (by omega)

/-- Witness for C9: the literal template `"/a/b"` of the repository's own
test suite. -/
theorem claim_c9_witness :
    (Router.register Router.new "/a/b" 5 none "GET").2 = none ∧
    Router.route (Router.register Router.new "/a/b" 5 none "GET").1 "/a/b" "GET" =
      some (5, []) :=
  claim_c9 Router.new "/a/b" 5 "GET" (by rfl)

/-! ### Claim C10: leading-slash policy -/

/-- A split component built from a nonempty accumulator is nonempty. -/
theorem mk_reverse_ne_empty (acc : List Char) (hacc : acc ≠ []) :
    String.mk acc.reverse ≠ "" := by
  intro h
  apply hacc
  have h2 : acc.reverse = ([] : List Char) := congrArg String.data h
  simpa using h2

/-- Once a component has started with a non-slash character, the first
component of the split is nonempty. -/
theorem splitAux_head_nonempty :
    ∀ (cs acc : List Char), acc ≠ [] →
      ∃ hd tl, splitAux cs acc = hd :: tl ∧ hd ≠ "" := by
  intro cs
  induction cs with
  | nil =>
    intro acc hacc
    exact ⟨String.mk acc.reverse, [], rfl, mk_reverse_ne_empty acc hacc⟩
  | cons c cs ih =>
    intro acc hacc
    by_cases hc : c = '/'
    · exact ⟨String.mk acc.reverse, splitAux cs [], by simp [splitAux, hc],
        mk_reverse_ne_empty acc hacc⟩
    · obtain ⟨hd, tl, heq, hne⟩ := ih (c :: acc) (by simp)
      exact ⟨hd, tl, by simp [splitAux, hc, heq], hne⟩

/-- A node with no dynamic edge and no literal edge for the current
component rejects every nonempty path. -/
theorem findMatch_no_dyn_miss (fuel : Nat) (st : List (String × PathSegment))
    (rt : Option Nat) (hd : String) (tl : List String) (params : Params)
    (h : alookup st hd = none) :
    findMatch (fuel + 1) (.node st [] rt) (hd :: tl) params = none := by
  simp [findMatch, PathSegment.static, PathSegment.dynamic, h, tryDynamic]

/-- The router on which only `"/"` has been registered. -/
def routerSlash : Router := (Router.register Router.new "/" 7 none "GET").1

/-- The trie root `routerSlash` holds for method GET: the literal chain of
the two empty components of `"/".split("/")`. -/
def rootSlash : PathSegment :=
  .node [("", .node [("", .node [] [] (some 7))] [] none)] [] none

/-- Claim C10: leading-slash policy.  Splitting retains the leading empty
component of a leading `/` (identically at registration and lookup time,
both going through `splitSlash`), so on the router where only `"/"` is
registered no path that fails to begin with `/` can match: `route("/")`
finds the handler with an empty parameter map while `route("")` — and any
other slash-free path — is not found. -/
theorem claim_c10 :
    (∀ s : String, s.toList.head? = some '/' → (splitSlash s).head? = some "") ∧
    (∀ p : String, p.toList.head? ≠ some '/' →
      Router.route routerSlash p "GET" = none) ∧
    Router.route routerSlash "/" "GET" = some (7, []) ∧
    Router.route routerSlash "" "GET" = none := by
  refine ⟨?_, ?_, rfl, rfl⟩
  · intro s h
    cases hl : s.toList with
    | nil => rw [hl] at h; simp at h
    | cons c t =>
      rw [hl] at h
      simp only [List.head?] at h
      cases h
      simp only [splitSlash]
      rw [hl]
      simp [splitAux]
  · intro p hp
    cases hl : p.toList with
    | nil =>
      have hsplit : splitSlash p = [""] := by
        simp only [splitSlash]
        rw [hl]
        rfl
      simp only [Router.route, hsplit]
      rfl
    | cons c t =>
      have hc : c ≠ '/' := by
        intro h
        rw [hl, h] at hp
        simp at hp
      obtain ⟨hd, tl, heq, hne⟩ := splitAux_head_nonempty t [c] (by simp)
      have hsplit : splitSlash p = hd :: tl := by
        simp only [splitSlash]
        rw [hl]
        simp [splitAux, hc, heq]
      simp only [Router.route, hsplit]
      rw [show alookup routerSlash.routes (toUpperStr "GET") = some rootSlash from rfl]
      exact findMatch_no_dyn_miss (tl.length + 1 + 1) _ _ hd tl []
        (by simp [alookup, Ne.symm hne])

/-- Witness for C10: the split-retention fact at `"/ab"` and the
not-found result at the slash-free path `"ab"`. -/
theorem claim_c10_witness :
    (splitSlash "/ab").head? = some "" ∧
    Router.route routerSlash "ab" "GET" = none := by
  constructor
  · exact claim_c10.1 "/ab" rfl
  · exact claim_c10.2.1 "ab" (by decide)

/-! ### Claims C4/C5: registration-time template errors

Boolean characterisations of the spec's two defect conditions, evaluated
with the same split/parse functions the embedded compiler uses. -/

/-- The piece is a placeholder whose parsed pattern is a matchall
(`path` or `re*:` typed). -/
def pieceMA (p : String) : Bool :=
  pieceIsVar p &&
    match parseVar (varInner p) with
    | .ok (true, _) => true
    | _ => false

/-- The piece is a placeholder whose type annotation `_parse_var`
rejects. -/
def varPieceUnknown (p : String) : Bool :=
  pieceIsVar p &&
    match parseVar (varInner p) with
    | .error _ => true
    | .ok _ => false

/-- Some component of the template carries a placeholder with an unknown
type annotation. -/
def hasUnknown (parts : List String) : Bool :=
  parts.any fun part => (varSplit part).any varPieceUnknown

/-- Some piece of the component is a matchall placeholder violating a
position check: the component is not the template's last (`lastPart`
false), or the piece is not the component's last. -/
def piecesMisplaced : List String → Bool → Bool
  | [], _ => false
  | p :: rest, lastPart =>
    (pieceMA p && (!lastPart || !rest.isEmpty)) || piecesMisplaced rest lastPart

/-- Some component of the template holds a misplaced matchall
placeholder. -/
def hasMisplaced : List String → Bool
  | [] => false
  | [part] => piecesMisplaced (varSplit part) true
  | part :: rest => piecesMisplaced (varSplit part) false || hasMisplaced rest

/-- Unfolding `hasMisplaced` uniformly over a cons. -/
theorem hasMisplaced_cons (part : String) (rest : List String) :
    hasMisplaced (part :: rest) =
      (piecesMisplaced (varSplit part) rest.isEmpty || hasMisplaced rest) := by
  cases rest with
  | nil => simp [hasMisplaced]
  | cons q t => simp [hasMisplaced]

/-- The group name `_parse_var` derives from a placeholder's inner text:
everything before the first colon. -/
def varName (s : String) : String :=
  match splitFirstColon s.toList with
  | none => s
  | some (nameCs, _) => String.mk nameCs

/-- The group name of a placeholder piece. -/
def pieceName (p : String) : String := varName (varInner p)

/-- Every placeholder name of the component is a valid identifier and no
name repeats — exactly the condition under which `re.compile` accepts the
generated pattern (custom fragment bodies aside). -/
def partNamesOk (part : String) : Bool :=
  (((varSplit part).filter pieceIsVar).map pieceName).all validIdent &&
  noDupNames (((varSplit part).filter pieceIsVar).map pieceName)

/-- The piece is a caller-supplied `re:`/`re*:` placeholder, whose
fragment validity the embedding does not model. -/
def pieceCustom (p : String) : Bool :=
  pieceIsVar p &&
    match parseVar (varInner p) with
    | .ok (_, .grp _ (.custom _)) => true
    | _ => false

/-- Some component of the template holds a caller-supplied fragment. -/
def hasCustom (parts : List String) : Bool :=
  parts.any fun part => (varSplit part).any pieceCustom

/-- The only failure of the type dispatch is the unknown-filter
`ValueError`. -/
theorem parseVarType_error_shape (n vt : String) (e : Err)
    (h : parseVarType n vt = .error e) :
    ∃ v, e = .valueError ("Unknown route filter: " ++ v) := by
  unfold parseVarType at h
  split_ifs at h
  split at h <;> cases h
  exact ⟨vt, rfl⟩

/-- The only `raise` in `_parse_var` is the unknown-filter `ValueError`. -/
theorem parseVar_error_shape (s : String) (e : Err)
    (h : parseVar s = .error e) :
    ∃ v, e = .valueError ("Unknown route filter: " ++ v) := by
  unfold parseVar at h
  split at h
  · exact Except.noConfusion h
  · exact parseVarType_error_shape _ _ _ h

/-- A matchall-clean piece list holding an unknown annotation makes
`compilePieces` fail with that unknown-filter error. -/
theorem compilePieces_unknown :
    ∀ (pieces : List String) (lastPart : Bool),
      piecesMisplaced pieces lastPart = false →
      pieces.any varPieceUnknown = true →
      ∃ v, compilePieces pieces lastPart =
        .error (.valueError ("Unknown route filter: " ++ v)) := by
  intro pieces
  induction pieces with
  | nil => intro lastPart _ hunk; simp at hunk
  | cons p rest ih =>
    intro lastPart hmis hunk
    simp only [piecesMisplaced, Bool.or_eq_false_iff] at hmis
    simp only [List.any_cons, Bool.or_eq_true] at hunk
    by_cases hp : pieceIsVar p
    · cases hpv : parseVar (varInner p) with
      | error e =>
        obtain ⟨v, hv⟩ := parseVar_error_shape _ _ hpv
        exact ⟨v, by simp [compilePieces, hp, hpv, hv]⟩
      | ok matok =>
        obtain ⟨ma, tok⟩ := matok
        have hpu : varPieceUnknown p = false := by simp [varPieceUnknown, hpv]
        have hrest : rest.any varPieceUnknown = true := by
          rcases hunk with h | h
          · rw [hpu] at h; cases h
          · exact h
        cases ma with
        | true =>
          have hma : pieceMA p = true := by simp [pieceMA, hp, hpv]
          rw [hma] at hmis
          have h2 : (!lastPart || !rest.isEmpty) = false := by
            simpa using hmis.1
          simp only [Bool.or_eq_false_iff, Bool.not_eq_false',
            Bool.not_eq_false] at h2
          rw [List.isEmpty_iff.mp h2.2] at hrest
          cases hrest
        | false =>
          obtain ⟨v, hv⟩ := ih lastPart hmis.2 hrest
          exact ⟨v, by simp [compilePieces, hp, hpv, hv]⟩
    · have hpu : varPieceUnknown p = false := by
        simp [varPieceUnknown, hp]
      have hrest : rest.any varPieceUnknown = true := by
        rcases hunk with h | h
        · rw [hpu] at h; cases h
        · exact h
      obtain ⟨v, hv⟩ := ih lastPart hmis.2 hrest
      exact ⟨v, by simp [compilePieces, hp, hv]⟩

/-- A matchall-clean piece list with no unknown annotation compiles. -/
theorem compilePieces_ok :
    ∀ (pieces : List String) (lastPart : Bool),
      piecesMisplaced pieces lastPart = false →
      pieces.any varPieceUnknown = false →
      ∃ res, compilePieces pieces lastPart = .ok res := by
  intro pieces
  induction pieces with
  | nil => intro lastPart _ _; exact ⟨(false, []), rfl⟩
  | cons p rest ih =>
    intro lastPart hmis hunk
    simp only [piecesMisplaced, Bool.or_eq_false_iff] at hmis
    simp only [List.any_cons, Bool.or_eq_false_iff] at hunk
    by_cases hp : pieceIsVar p
    · cases hpv : parseVar (varInner p) with
      | error e =>
        have : varPieceUnknown p = true := by simp [varPieceUnknown, hp, hpv]
        rw [this] at hunk
        cases hunk.1
      | ok matok =>
        obtain ⟨ma, tok⟩ := matok
        cases ma with
        | true =>
          have hma : pieceMA p = true := by simp [pieceMA, hp, hpv]
          rw [hma] at hmis
          have h2 : (!lastPart || !rest.isEmpty) = false := by
            simpa using hmis.1
          simp only [Bool.or_eq_false_iff, Bool.not_eq_false',
            Bool.not_eq_false] at h2
          have hrestnil : rest = [] := List.isEmpty_iff.mp h2.2
          subst hrestnil
          exact ⟨(true, [tok]), by simp [compilePieces, hp, hpv, h2.1]⟩
        | false =>
          obtain ⟨res, hres⟩ := ih lastPart hmis.2 hunk.2
          exact ⟨(false || res.1, tok :: res.2),
            by simp [compilePieces, hp, hpv, hres]⟩
    · obtain ⟨res, hres⟩ := ih lastPart hmis.2 hunk.2
      exact ⟨(res.1, .lit p :: res.2), by simp [compilePieces, hp, hres]⟩

/-- Every successful arm of the type dispatch yields a group named after
the text before the colon. -/
theorem parseVarType_ok_name (n vt : String) (ma : Bool) (tok : Tok)
    (h : parseVarType n vt = .ok (ma, tok)) : ∃ k, tok = .grp n k := by
  unfold parseVarType at h
  split_ifs at h <;>
    first
    | · simp only [Except.ok.injEq, Prod.mk.injEq] at h
        exact ⟨_, h.2.symm⟩
    | · split at h <;>
          first
          | · simp only [Except.ok.injEq, Prod.mk.injEq] at h
              exact ⟨_, h.2.symm⟩
          | · cases h

/-- A successful `_parse_var` yields a group named `varName`. -/
theorem parseVar_ok_name (s : String) (ma : Bool) (tok : Tok)
    (h : parseVar s = .ok (ma, tok)) : ∃ k, tok = .grp (varName s) k := by
  unfold parseVar at h
  split at h
  · rename_i heq
    have heq2 : splitFirstColon s.data = none := heq
    simp only [Except.ok.injEq, Prod.mk.injEq] at h
    exact ⟨.plain, by rw [← h.2]; simp [varName, heq2]⟩
  · rename_i nameCs vt heq
    have heq2 : splitFirstColon s.data = some (nameCs, vt) := heq
    obtain ⟨k, hk⟩ := parseVarType_ok_name (String.mk nameCs) vt ma tok h
    exact ⟨k, by rw [hk]; simp [varName, heq2]⟩

/-- The group names of a compiled segment are the placeholder names of its
pieces, in order. -/
theorem compilePieces_groupNames :
    ∀ (pieces : List String) (lastPart : Bool) (res : Bool × List Tok),
      compilePieces pieces lastPart = .ok res →
      groupNames res.2 = (pieces.filter pieceIsVar).map pieceName := by
  intro pieces
  induction pieces with
  | nil =>
    intro lastPart res h
    simp only [compilePieces, Except.ok.injEq] at h
    rw [← h]
    simp [groupNames]
  | cons p rest ih =>
    intro lastPart res h
    simp only [compilePieces] at h
    by_cases hp : pieceIsVar p = true
    · rw [if_pos hp] at h
      split at h
      · cases h
      · rename_i ma1 tok1 hpv
        obtain ⟨k, hk⟩ := parseVar_ok_name (varInner p) ma1 tok1 hpv
        cases hma : ma1 with
        | true =>
          rw [hma, if_pos rfl] at h
          split_ifs at h with hl hr
          split at h
          · cases h
          · rename_i ma2 toks2 heq2
            simp only [Except.ok.injEq] at h
            rw [← h]
            have hrnil : rest = [] := by
              simpa [List.isEmpty_iff] using hr
            subst hrnil
            simp only [compilePieces, Except.ok.injEq, Prod.mk.injEq] at heq2
            rw [hk, ← heq2.2]
            simp [groupNames, List.filter_cons, hp, pieceName]
        | false =>
          rw [hma, if_neg Bool.false_ne_true] at h
          split at h
          · cases h
          · rename_i ma2 toks2 heq2
            simp only [Except.ok.injEq] at h
            rw [← h, hk]
            simp [groupNames, List.filter_cons, hp, pieceName,
              ih lastPart (ma2, toks2) heq2]
    · rw [if_neg hp] at h
      split at h
      · cases h
      · rename_i ma2 toks2 heq2
        simp only [Except.ok.injEq] at h
        rw [← h]
        simp [groupNames, List.filter_cons, hp, ih lastPart (ma2, toks2) heq2]

/-- With valid, unrepeated placeholder names, the generated pattern
compiles. -/
theorem compileOk_of_names (part : String) (lastPart : Bool)
    (res : Bool × List Tok)
    (h : compilePieces (varSplit part) lastPart = .ok res)
    (hnames : partNamesOk part = true) : compileOk res.2 = true := by
  have hgn := compilePieces_groupNames (varSplit part) lastPart res h
  simp only [compileOk, hgn]
  simpa [partNamesOk] using hnames

/-- When its pieces compile and its placeholder names are valid and
unrepeated, `compilePart` succeeds (static fast path, or a cache hit, or a
successful `re.compile` on a miss). -/
theorem compilePart_ok (cache : RegexCache) (part : String) (lastPart : Bool)
    (res : Bool × List Tok)
    (h : compilePieces (varSplit part) lastPart = .ok res)
    (hnames : partNamesOk part = true) :
    ∃ seg cache', compilePart cache part lastPart = .ok (seg, cache') := by
  simp only [compilePart]
  rw [h]
  by_cases hvar : (varSplit part).any pieceIsVar
  · simp only [hvar, if_true]
    cases halo : alookup cache (buildSrc res.2) with
    | some ctoks => exact ⟨.dyn res.1 ctoks, cache, by simp [halo]⟩
    | none =>
      have hok := compileOk_of_names part lastPart res h hnames
      exact ⟨.dyn res.1 res.2, cache ++ [(buildSrc res.2, res.2)],
        by simp [halo, hok]⟩
  · exact ⟨.static part, cache, by simp [hvar]⟩

/-- A matchall-clean template with an unknown annotation makes the
component loop of `_split_path` fail with the unknown-filter error. -/
theorem splitPathAux_unknown :
    ∀ (parts : List String) (cache : RegexCache),
      hasMisplaced parts = false →
      parts.all partNamesOk = true →
      hasUnknown parts = true →
      ∃ v cache', splitPathAux cache parts =
        (cache', .error (.valueError ("Unknown route filter: " ++ v))) := by
  intro parts
  induction parts with
  | nil => intro cache _ _ hunk; simp [hasUnknown] at hunk
  | cons p rest ih =>
    intro cache hmis hnames hunk
    rw [hasMisplaced_cons] at hmis
    simp only [Bool.or_eq_false_iff] at hmis
    simp only [List.all_cons, Bool.and_eq_true] at hnames
    simp only [hasUnknown, List.any_cons, Bool.or_eq_true] at hunk
    by_cases hphead : (varSplit p).any varPieceUnknown
    · obtain ⟨v, hv⟩ := compilePieces_unknown (varSplit p) rest.isEmpty hmis.1 hphead
      exact ⟨v, cache, by simp [splitPathAux, compilePart, hv]⟩
    · have hrest : hasUnknown rest = true := by
        rcases hunk with h | h
        · exact absurd h hphead
        · exact h
      obtain ⟨res, hres⟩ := compilePieces_ok (varSplit p) rest.isEmpty hmis.1
        (by simpa using hphead)
      obtain ⟨seg, cache', hpart⟩ :=
        compilePart_ok cache p rest.isEmpty res hres hnames.1
      obtain ⟨v, cache'', hv⟩ := ih cache' hmis.2 hnames.2 hrest
      exact ⟨v, cache'', by simp [splitPathAux, hpart, hv]⟩

/-- Every path splits into at least one component. -/
theorem splitSlash_ne_nil (s : String) : ∃ hd tl, splitSlash s = hd :: tl := by
  unfold splitSlash
  generalize s.toList = cs
  induction cs with
  | nil => exact ⟨String.mk [], [], rfl⟩
  | cons c t ih =>
    by_cases hc : c = '/'
    · exact ⟨"", splitAux t [], by simp [splitAux, hc]⟩
    · obtain ⟨hd, tl, h⟩ := splitAux_head_nonempty t [c] (by simp)
      exact ⟨hd, tl, by simp [splitAux, hc, h.1]⟩

/-- A freshly created trie matches no path. -/
theorem findMatch_emptyNode (fuel : Nat) (hd : String) (tl : List String)
    (params : Params) : findMatch fuel emptyNode (hd :: tl) params = none := by
  cases fuel with
  | zero => rfl
  | succ n =>
    simp [findMatch, emptyNode, PathSegment.static, PathSegment.dynamic,
      alookup, tryDynamic]

/-- Re-storing a method's existing root (or storing a fresh empty root for
an unseen method), as the failing `register` does before it raises, leaves
the lookup behaviour of every path and method unchanged. -/
theorem route_aset_same_root (r : Router) (m0 : String)
    (named' : List (String × List (String × String))) (cache' : RegexCache) :
    ∀ (p m2 : String),
      Router.route
        ⟨aset r.routes m0 ((alookup r.routes m0).getD emptyNode), named', cache'⟩
        p m2 = Router.route r p m2 := by
  intro p m2
  simp only [Router.route]
  by_cases hm : toUpperStr m2 = m0
  · rw [hm, alookup_aset_self]
    cases h0 : alookup r.routes m0 with
    | some root => simp
    | none =>
      simp only [Option.getD_none]
      obtain ⟨hd, tl, hsplit⟩ := splitSlash_ne_nil p
      rw [hsplit]
      simp [findMatch_emptyNode]
  · rw [alookup_aset_ne _ _ _ _ hm]

/-- Claim C5 (amended): fail-fast on unknown placeholder annotations.  For
every template without a misplaced matchall placeholder, whose placeholder
names are valid unrepeated identifiers and which carries no caller-supplied
`re:`/`re*:` fragment (so that `re.compile` cannot raise first — the
fragment on which the embedded compile check coincides with `re.compile`),
if some placeholder's annotation is unknown, `register` raises the
unknown-filter `ValueError` (the source's realisation of the spec's
`PatternError`) and the lookup behaviour established by prior
registrations is untouched.  (When a misplaced matchall — or, outside
these hypotheses, an invalid group name or fragment — precedes the
offending placeholder in scan order, that earlier error wins instead; see
the counterexample.) -/
theorem claim_c5 (tmpl : String) (r : Router) (rt : Nat) (name : Option String)
    (method : String)
    (hmis : hasMisplaced (splitSlash tmpl) = false)
    (hnames : (splitSlash tmpl).all partNamesOk = true)
    (_hcustom : hasCustom (splitSlash tmpl) = false)
    (hunk : hasUnknown (splitSlash tmpl) = true) :
    (∃ v, (Router.register r tmpl rt name method).2 =
      some (.valueError ("Unknown route filter: " ++ v))) ∧
    ∀ (p m2 : String),
      Router.route (Router.register r tmpl rt name method).1 p m2 =
        Router.route r p m2 := by
  obtain ⟨v, cache', hsplit⟩ :=
    splitPathAux_unknown (splitSlash tmpl) r.reCache hmis hnames hunk
  constructor
  · exact ⟨v, by simp [Router.register, splitPath, hsplit]⟩
  · intro p m2
    have hreg : (Router.register r tmpl rt name method).1 =
        ⟨aset r.routes (toUpperStr method)
          ((alookup r.routes (toUpperStr method)).getD emptyNode), r.named, cache'⟩ := by
      simp [Router.register, splitPath, hsplit]
    rw [hreg]
    exact route_aset_same_root r (toUpperStr method) r.named cache' p m2

/-- Witness for C5 (amended): `"/a/<b:zzz>"` has no matchall at all and an
unknown annotation, so registering it on a fresh router fails with the
unknown-filter error and perturbs no lookup. -/
theorem claim_c5_witness :
    (∃ v, (Router.register Router.new "/a/<b:zzz>" 1 none "GET").2 =
      some (.valueError ("Unknown route filter: " ++ v))) ∧
    ∀ (p m2 : String),
      Router.route (Router.register Router.new "/a/<b:zzz>" 1 none "GET").1 p m2 =
        Router.route Router.new p m2 :=
  claim_c5 "/a/<b:zzz>" Router.new 1 none "GET" rfl rfl rfl rfl

/-- Counterexample to C5 as stated: an earlier-scanned defect beats the
unknown annotation.  The template `"/<a:path>/<b:zzz>"` contains a
placeholder with the unknown annotation `zzz`, yet `register` fails with
the matchall-misplacement `ValueError` of the earlier `<a:path>` segment;
and `"/<>/<b:zzz>"` also contains the unknown annotation, yet `register`
fails with `re.error` from `re.compile` on the empty group name of `<>`
before `<b:zzz>` is ever scanned.  Neither failure is the unknown-filter
error the claim promises. -/
theorem claim_c5_counterexample :
    (hasUnknown (splitSlash "/<a:path>/<b:zzz>") = true ∧
      (Router.register Router.new "/<a:path>/<b:zzz>" 1 none "GET").2 =
        some (.valueError matchallMsg1) ∧
      ∀ v : String,
        Err.valueError matchallMsg1 ≠
          Err.valueError ("Unknown route filter: " ++ v)) ∧
    hasUnknown (splitSlash "/<>/<b:zzz>") = true ∧
    (Router.register Router.new "/<>/<b:zzz>" 1 none "GET").2 =
      some (.reError "^(?P<>[^\\/]+)$") ∧
    ∀ msg : String, Err.reError "^(?P<>[^\\/]+)$" ≠ Err.valueError msg := by
  refine ⟨⟨rfl, rfl, ?_⟩, rfl, rfl, ?_⟩
  · intro v h
    injection h with h2
    have h3 : matchallMsg1.data = "Unknown route filter: ".data ++ v.data := by
      rw [h2, String.data_append]
    have h4 := congrArg List.head? h3
    rw [show matchallMsg1.data.head? = some 'M' from rfl] at h4
    rw [show ("Unknown route filter: ".data ++ v.data).head? = some 'U' from rfl] at h4
    exact absurd h4 (by decide)
  · intro msg h
    cases h

/-- Every placeholder of the component has a known annotation. -/
def partOk (part : String) : Bool :=
  (varSplit part).all fun p => !varPieceUnknown p

/-- A component whose placeholders all parse has no unknown piece. -/
theorem partOk_no_unknown (p : String) (h : partOk p = true) :
    (varSplit p).any varPieceUnknown = false := by
  simp only [partOk, List.all_eq_true, Bool.not_eq_true'] at h
  simp only [List.any_eq_false]
  intro x hx
  simp [h x hx]

/-- With all annotations known, a misplaced matchall makes
`compilePieces` fail with one of the two matchall `ValueError`s. -/
theorem compilePieces_misplaced :
    ∀ (pieces : List String) (lastPart : Bool),
      (pieces.all fun p => !varPieceUnknown p) = true →
      piecesMisplaced pieces lastPart = true →
      ∃ msg, compilePieces pieces lastPart = .error (.valueError msg) ∧
        (msg = matchallMsg1 ∨ msg = matchallMsg2) := by
  intro pieces
  induction pieces with
  | nil => intro lastPart _ hmis; simp [piecesMisplaced] at hmis
  | cons p rest ih =>
    intro lastPart hall hmis
    simp only [List.all_cons, Bool.and_eq_true, Bool.not_eq_true'] at hall
    simp only [piecesMisplaced, Bool.or_eq_true] at hmis
    by_cases hp : pieceIsVar p
    · cases hpv : parseVar (varInner p) with
      | error e =>
        have : varPieceUnknown p = true := by simp [varPieceUnknown, hp, hpv]
        rw [hall.1] at this
        cases this
      | ok matok =>
        obtain ⟨ma, tok⟩ := matok
        cases ma with
        | true =>
          cases hlast : lastPart with
          | false =>
            exact ⟨matchallMsg1, by simp [compilePieces, hp, hpv, hlast], .inl rfl⟩
          | true =>
            cases hre : rest.isEmpty with
            | false =>
              exact ⟨matchallMsg2,
                by simp [compilePieces, hp, hpv, hlast, hre], .inr rfl⟩
            | true =>
              exfalso
              have hma : pieceMA p = true := by simp [pieceMA, hp, hpv]
              rw [List.isEmpty_iff.mp hre] at hmis
              simp [hma, hlast, piecesMisplaced] at hmis
        | false =>
          have hma : pieceMA p = false := by simp [pieceMA, hpv]
          rcases hmis with h | h
          · rw [hma] at h; cases h
          · obtain ⟨msg, hmsg, hor⟩ := ih lastPart hall.2 h
            exact ⟨msg, by simp [compilePieces, hp, hpv, hmsg], hor⟩
    · have hma : pieceMA p = false := by simp [pieceMA, hp]
      rcases hmis with h | h
      · rw [hma] at h; cases h
      · obtain ⟨msg, hmsg, hor⟩ := ih lastPart hall.2 h
        exact ⟨msg, by simp [compilePieces, hp, hmsg], hor⟩

/-- With all annotations known, a template holding a misplaced matchall
makes the component loop of `_split_path` fail with a matchall
`ValueError`. -/
theorem splitPathAux_misplaced :
    ∀ (parts : List String) (cache : RegexCache),
      parts.all partOk = true →
      parts.all partNamesOk = true →
      hasMisplaced parts = true →
      ∃ msg cache', splitPathAux cache parts = (cache', .error (.valueError msg)) ∧
        (msg = matchallMsg1 ∨ msg = matchallMsg2) := by
  intro parts
  induction parts with
  | nil => intro cache _ _ hmis; simp [hasMisplaced] at hmis
  | cons p rest ih =>
    intro cache hall hnames hmis
    simp only [List.all_cons, Bool.and_eq_true] at hall hnames
    rw [hasMisplaced_cons] at hmis
    by_cases hh : piecesMisplaced (varSplit p) rest.isEmpty = true
    · obtain ⟨msg, hmsg, hor⟩ :=
        compilePieces_misplaced (varSplit p) rest.isEmpty hall.1 hh
      exact ⟨msg, cache, by simp [splitPathAux, compilePart, hmsg], hor⟩
    · have hrest : hasMisplaced rest = true := by
        rcases Bool.or_eq_true_iff.mp hmis with h | h
        · exact absurd h hh
        · exact h
      obtain ⟨res, hres⟩ := compilePieces_ok (varSplit p) rest.isEmpty
        (by simpa using hh) (partOk_no_unknown p hall.1)
      obtain ⟨seg, cache', hpart⟩ :=
        compilePart_ok cache p rest.isEmpty res hres hnames.1
      obtain ⟨msg, cache'', hmsg, hor⟩ := ih cache' hall.2 hnames.2 hrest
      exact ⟨msg, cache'', by simp [splitPathAux, hpart, hmsg], hor⟩

/-- Claim C4 (amended): misplaced matchall placeholders are rejected at
registration time.  For every template whose placeholders all carry known
annotations and valid unrepeated identifier names, and which carries no
caller-supplied `re:`/`re*:` fragment (so that neither the unknown-filter
error nor `re.error` from `re.compile` can be raised first — the fragment
on which the embedded compile check coincides with `re.compile`), if a
matchall placeholder is not both in the template's last component and the
last piece of that component, `register` raises one of the two
matchall-misplacement `ValueError`s (the source's realisation of the
spec's `RouteDefinitionError`) and the lookup behaviour of every path and
method is left exactly as before the call — the check lives only in
`_split_path`, which lookups never execute.  (A template that also carries
an unknown annotation scanned earlier fails with the unknown-filter error
instead — see the counterexample.) -/
theorem claim_c4 (tmpl : String) (r : Router) (rt : Nat) (name : Option String)
    (method : String)
    (hall : (splitSlash tmpl).all partOk = true)
    (hnames : (splitSlash tmpl).all partNamesOk = true)
    (_hcustom : hasCustom (splitSlash tmpl) = false)
    (hmis : hasMisplaced (splitSlash tmpl) = true) :
    (∃ msg, (Router.register r tmpl rt name method).2 =
      some (.valueError msg) ∧ (msg = matchallMsg1 ∨ msg = matchallMsg2)) ∧
    ∀ (p m2 : String),
      Router.route (Router.register r tmpl rt name method).1 p m2 =
        Router.route r p m2 := by
  obtain ⟨msg, cache', hsplit, hor⟩ :=
    splitPathAux_misplaced (splitSlash tmpl) r.reCache hall hnames hmis
  constructor
  · exact ⟨msg, by simp [Router.register, splitPath, hsplit], hor⟩
  · intro p m2
    have hreg : (Router.register r tmpl rt name method).1 =
        ⟨aset r.routes (toUpperStr method)
          ((alookup r.routes (toUpperStr method)).getD emptyNode), r.named, cache'⟩ := by
      simp [Router.register, splitPath, hsplit]
    rw [hreg]
    exact route_aset_same_root r (toUpperStr method) r.named cache' p m2

/-- Witness for C4 (amended): `"/<a:path>/x"` has only known annotations
and its matchall is not in the last component. -/
theorem claim_c4_witness :
    (∃ msg, (Router.register Router.new "/<a:path>/x" 1 none "GET").2 =
      some (.valueError msg) ∧ (msg = matchallMsg1 ∨ msg = matchallMsg2)) ∧
    ∀ (p m2 : String),
      Router.route (Router.register Router.new "/<a:path>/x" 1 none "GET").1 p m2 =
        Router.route Router.new p m2 :=
  claim_c4 "/<a:path>/x" Router.new 1 none "GET" rfl rfl rfl rfl

/-- Counterexample to C4 as stated: an earlier-scanned defect beats the
misplaced matchall.  `"/x/<a:zzz>/<b:path>/y"` contains a misplaced
matchall placeholder (`<b:path>` is not in the last component), yet
`register` fails with the unknown-filter `ValueError` of the earlier
`<a:zzz>` placeholder; and `"/<>/<b:path>/x"` also contains the misplaced
matchall, yet `register` fails with `re.error` from `re.compile` on the
empty group name of `<>` before part 2's matchall check runs.  Neither
failure is a matchall-misplacement error. -/
theorem claim_c4_counterexample :
    (hasMisplaced (splitSlash "/x/<a:zzz>/<b:path>/y") = true ∧
      (Router.register Router.new "/x/<a:zzz>/<b:path>/y" 1 none "GET").2 =
        some (.valueError "Unknown route filter: zzz") ∧
      "Unknown route filter: zzz" ≠ matchallMsg1 ∧
      "Unknown route filter: zzz" ≠ matchallMsg2) ∧
    hasMisplaced (splitSlash "/<>/<b:path>/x") = true ∧
    (Router.register Router.new "/<>/<b:path>/x" 1 none "GET").2 =
      some (.reError "^(?P<>[^\\/]+)$") ∧
    ∀ msg : String, Err.reError "^(?P<>[^\\/]+)$" ≠ Err.valueError msg := by
  refine ⟨⟨rfl, rfl, by decide, by decide⟩, rfl, rfl, ?_⟩
  intro msg h
  cases h

/-! ### Claim C8: missing reversal parameters -/

/-- The names of the bare `<name>` placeholders that
`_NAMED_REPLACE_RE.sub` visits in a template, in scan order — the same
scan as `nreplAux`, independent of any parameter map. -/
def scanVars : List Char → Option (List Char) → List String
  | [], _ => []
  | c :: cs, none =>
    if c = '<' then scanVars cs (some []) else scanVars cs none
  | c :: cs, some buf =>
    if isNameChar c then scanVars cs (some (c :: buf))
    else if c = '>' && !buf.isEmpty then
      String.mk buf.reverse :: scanVars cs none
    else if c = '<' then scanVars cs (some [])
    else scanVars cs none

/-- If some scanned placeholder name is absent from the parameter map, the
substitution scan raises `RouteError` naming a scanned, absent key (the
first one in scan order). -/
theorem nreplAux_missing (params : Params) :
    ∀ (cs : List Char) (st : Option (List Char)),
      ((scanVars cs st).any fun k => (alookup params k).isNone) = true →
      ∃ k, nreplAux params cs st =
          .error (.routeError ("No parameter for named path: " ++ k)) ∧
        k ∈ scanVars cs st ∧ alookup params k = none := by
  intro cs
  induction cs with
  | nil => intro st h; cases st <;> simp [scanVars] at h
  | cons c cs ih =>
    intro st h
    cases st with
    | none =>
      by_cases hc : c = '<'
      · rw [show scanVars (c :: cs) none = scanVars cs (some []) from by
          simp [scanVars, hc]] at h ⊢
        obtain ⟨k, hk, hmem, hnone⟩ := ih (some []) h
        exact ⟨k, by simp [nreplAux, hc, hk], hmem, hnone⟩
      · rw [show scanVars (c :: cs) none = scanVars cs none from by
          simp [scanVars, hc]] at h ⊢
        obtain ⟨k, hk, hmem, hnone⟩ := ih none h
        exact ⟨k, by simp [nreplAux, hc, hk], hmem, hnone⟩
    | some buf =>
      by_cases h1 : isNameChar c = true
      · rw [show scanVars (c :: cs) (some buf) = scanVars cs (some (c :: buf)) from by
          simp [scanVars, h1]] at h ⊢
        obtain ⟨k, hk, hmem, hnone⟩ := ih (some (c :: buf)) h
        exact ⟨k, by simp [nreplAux, h1, hk], hmem, hnone⟩
      · by_cases h2 : c = '>'
        · subst h2
          cases hb : buf.isEmpty with
          | false =>
            rw [show scanVars ('>' :: cs) (some buf) =
                String.mk buf.reverse :: scanVars cs none from by
              simp [scanVars, hb, show isNameChar '>' = false from rfl]] at h ⊢
            simp only [List.any_cons, Bool.or_eq_true] at h
            cases hlk : alookup params (String.mk buf.reverse) with
            | none =>
              exact ⟨String.mk buf.reverse,
                by simp [nreplAux, hb, hlk,
                  show isNameChar '>' = false from rfl], by simp, hlk⟩
            | some v =>
              have hrest : (scanVars cs none).any
                  (fun k => (alookup params k).isNone) = true := by
                rcases h with h | h
                · rw [hlk] at h; cases h
                · exact h
              obtain ⟨k, hk, hmem, hnone⟩ := ih none hrest
              exact ⟨k, by simp [nreplAux, hb, hlk, hk,
                show isNameChar '>' = false from rfl], by simp [hmem], hnone⟩
          | true =>
            rw [show scanVars ('>' :: cs) (some buf) = scanVars cs none from by
              simp [scanVars, hb, show isNameChar '>' = false from rfl]] at h ⊢
            obtain ⟨k, hk, hmem, hnone⟩ := ih none h
            refine ⟨k, ?_, hmem, hnone⟩
            simp [nreplAux, hb, hk, show isNameChar '>' = false from rfl,
              show ¬('>' = '<') from by decide]
        · by_cases h4 : c = '<'
          · subst h4
            rw [show scanVars ('<' :: cs) (some buf) = scanVars cs (some []) from by
              simp [scanVars, show isNameChar '<' = false from rfl,
                show ¬('<' = '>') from by decide]] at h ⊢
            obtain ⟨k, hk, hmem, hnone⟩ := ih (some []) h
            exact ⟨k, by simp [nreplAux, hk,
              show isNameChar '<' = false from rfl,
              show ¬('<' = '>') from by decide], hmem, hnone⟩
          · rw [show scanVars (c :: cs) (some buf) = scanVars cs none from by
              simp [scanVars, h1, h2, h4]] at h ⊢
            obtain ⟨k, hk, hmem, hnone⟩ := ih none h
            exact ⟨k, by simp [nreplAux, h1, h2, h4, hk], hmem, hnone⟩

/-- Claim C8: for every registered name whose stored normalized template
contains a bare placeholder absent from the supplied parameter map,
`get` fails with `RouteError("No parameter for named path: <key>")` — the
source's realisation of the spec's `MissingParameterError`, naming a
missing key (the first in scan order) — rather than producing a path. -/
theorem claim_c8 (r : Router) (name : String) (params : Params)
    (method : String) (tbl : List (String × String)) (tmpl : String)
    (hm : alookup r.named (toUpperStr method) = some tbl)
    (hn : alookup tbl name = some tmpl)
    (hmiss : ((scanVars tmpl.toList none).any
      fun k => (alookup params k).isNone) = true) :
    ∃ k, Router.get r name params method =
        .error (.routeError ("No parameter for named path: " ++ k)) ∧
      k ∈ scanVars tmpl.toList none ∧ alookup params k = none := by
  obtain ⟨k, hk, hmem, hnone⟩ := nreplAux_missing params tmpl.toList none hmiss
  have hk2 : nreplAux params tmpl.data none =
      .error (.routeError ("No parameter for named path: " ++ k)) := hk
  exact ⟨k, by simp [Router.get, hm, hn, namedReplace, hk2], hmem, hnone⟩

/-- Witness for C8: the named route `"t"` of the running example, queried
without its `path` parameter. -/
theorem claim_c8_witness :
    ∃ k, Router.get routerA3 "t" [("name", "smith")] "GET" =
        .error (.routeError ("No parameter for named path: " ++ k)) ∧
      k ∈ scanVars "/c/d/<name>/<path>".toList none ∧
      alookup [("name", "smith")] k = none :=
  claim_c8 routerA3 "t" [("name", "smith")] "GET"
    [("t", "/c/d/<name>/<path>")] "/c/d/<name>/<path>" rfl rfl (by decide)

/-! ### Claim C2: regex-cache structural sharing -/

/-- Cache extension: every interned pattern stays interned with the same
compiled form. -/
def CacheLe (c c' : RegexCache) : Prop :=
  ∀ s toks, alookup c s = some toks → alookup c' s = some toks

/-- `CacheLe` is reflexive. -/
theorem cacheLe_refl (c : RegexCache) : CacheLe c c := fun _ _ h => h

/-- `CacheLe` is transitive. -/
theorem cacheLe_trans {a b c : RegexCache} (h1 : CacheLe a b) (h2 : CacheLe b c) :
    CacheLe a c := fun s toks h => h2 s toks (h1 s toks h)

/-- Appending fresh entries is a cache extension. -/
theorem cacheLe_append (c l : RegexCache) : CacheLe c (c ++ l) := by
  intro s toks h
  rw [alookup_append, h]

/-- The cache invariant: every entry is keyed by the source text of its
compiled form, and keys are unique (it is a dictionary). -/
def CacheWF (c : RegexCache) : Prop :=
  (∀ e ∈ c, buildSrc e.2 = e.1) ∧ (c.map Prod.fst).Nodup

/-- The trie invariant tying every dynamic edge to the regex cache: at
every node, each dynamic key's compiled form is exactly the cache entry
interned under its source text, and the dynamic keys are unique. -/
inductive SegOK (c : RegexCache) : PathSegment → Prop where
  | node : ∀ (st : List (String × PathSegment))
      (dy : List ((Bool × List Tok) × PathSegment)) (rt : Option Nat),
      (∀ p ∈ st, SegOK c p.2) →
      (∀ e ∈ dy, alookup c (buildSrc e.1.2) = some e.1.2) →
      (∀ e ∈ dy, SegOK c e.2) →
      (dy.map Prod.fst).Nodup →
      SegOK c (.node st dy rt)

/-- A fresh node satisfies the invariant. -/
theorem SegOK_empty (c : RegexCache) : SegOK c emptyNode :=
  .node [] [] none (by simp) (by simp) (by simp) (by simp)

/-- The invariant survives cache extension. -/
theorem SegOK_mono {c c' : RegexCache} (hle : CacheLe c c') :
    ∀ seg, SegOK c seg → SegOK c' seg := by
  intro seg h
  induction h with
  | node st dy rt hst hdy1 hdy2 hnd ihst ihdy =>
    exact .node st dy rt ihst
      (fun e he => hle _ _ (hdy1 e he)) ihdy hnd

/-- The claim's observable consequence: at every node, the
`(matchall, regex source text)` projections of the dynamic edges are
pairwise distinct — no duplicate parallel branch for a structurally
identical dynamic segment. -/
inductive DSN : PathSegment → Prop where
  | node : ∀ (st : List (String × PathSegment))
      (dy : List ((Bool × List Tok) × PathSegment)) (rt : Option Nat),
      (∀ p ∈ st, DSN p.2) →
      (∀ e ∈ dy, DSN e.2) →
      (dy.map fun e => (e.1.1, buildSrc e.1.2)).Nodup →
      DSN (.node st dy rt)

/-- The cache-tied invariant forces the uniqueness of
`(matchall, source)` projections: equal source text means the same interned
compiled form, hence the same dictionary key. -/
theorem SegOK_DSN (c : RegexCache) : ∀ seg, SegOK c seg → DSN seg := by
  intro seg h
  induction h with
  | node st dy rt hst hdy1 hdy2 hnd ihst ihdy =>
    refine DSN.node st dy rt ihst ihdy ?_
    have hmap : (dy.map fun e => (e.1.1, buildSrc e.1.2)) =
        (dy.map Prod.fst).map fun k => (k.1, buildSrc k.2) := by
      rw [List.map_map]
      rfl
    rw [hmap]
    refine List.Nodup.map_on ?_ hnd
    intro k1 hk1 k2 hk2 heq
    obtain ⟨e1, he1, hee1⟩ := List.mem_map.mp hk1
    obtain ⟨e2, he2, hee2⟩ := List.mem_map.mp hk2
    have l1 := hdy1 e1 he1
    have l2 := hdy1 e2 he2
    subst hee1
    subst hee2
    obtain ⟨h1, h2⟩ := Prod.mk.injEq .. |>.mp heq
    rw [h2, l2] at l1
    exact Prod.ext h1 (Option.some.injEq .. |>.mp l1).symm

/-- Replacing an existing key's value keeps the key list unchanged;
appending a fresh key appends it — so dictionaries keep unique keys. -/
theorem aset_keys_nodup {κ β : Type} [DecidableEq κ]
    (l : List (κ × β)) (k : κ) (v : β) (h : (l.map Prod.fst).Nodup) :
    ((aset l k v).map Prod.fst).Nodup := by
  induction l with
  | nil => simp [aset]
  | cons h0 t ih =>
    obtain ⟨k0, v0⟩ := h0
    simp only [List.map_cons, List.nodup_cons] at h
    by_cases hk : k0 = k
    · simp only [aset, if_pos hk, List.map_cons, List.nodup_cons]
      exact h
    · simp only [aset, if_neg hk, List.map_cons, List.nodup_cons]
      refine ⟨?_, ih h.2⟩
      intro hmem
      rcases List.mem_map.mp hmem with ⟨e, he, hee⟩
      rcases mem_aset t k v e he with h' | h'
      · apply hk
        rw [← hee, h']
      · exact h.1 (hee ▸ List.mem_map_of_mem Prod.fst h')

/-- Cache bookkeeping of one component compilation: the invariant is
preserved, the cache only grows, and a compiled dynamic segment is exactly
the entry interned under its source text. -/
theorem compilePart_cache (cache : RegexCache) (part : String) (lastPart : Bool)
    (seg : Seg) (cache' : RegexCache) (hwf : CacheWF cache)
    (h : compilePart cache part lastPart = .ok (seg, cache')) :
    CacheWF cache' ∧ CacheLe cache cache' ∧
    ∀ m toks, seg = .dyn m toks → alookup cache' (buildSrc toks) = some toks := by
  simp only [compilePart] at h
  split at h
  · cases h
  · rename_i ma toks0 heq
    split_ifs at h with hvar hok
    · split at h
      · rename_i ctoks hcl
        simp only [Except.ok.injEq, Prod.mk.injEq] at h
        obtain ⟨hseg, hcache⟩ := h
        subst hcache
        refine ⟨hwf, cacheLe_refl cache, ?_⟩
        intro m toks hdyn
        rw [hdyn] at hseg
        obtain ⟨_, htoks⟩ := Seg.dyn.injEq .. |>.mp hseg.symm
        subst htoks
        have hmem := alookup_mem cache (buildSrc toks0) toks hcl
        have hkey := hwf.1 _ hmem
        rw [hkey]
        exact hcl
      · rename_i hcl
        simp only [Except.ok.injEq, Prod.mk.injEq] at h
        obtain ⟨hseg, hcache⟩ := h
        subst hcache
        have hfresh : buildSrc toks0 ∉ cache.map Prod.fst :=
          alookup_eq_none cache _ hcl
        refine ⟨⟨?_, ?_⟩, cacheLe_append cache _, ?_⟩
        · intro e he
          rcases List.mem_append.mp he with he | he
          · exact hwf.1 e he
          · simp only [List.mem_singleton] at he
            rw [he]
        · rw [List.map_append, List.nodup_append]
          refine ⟨hwf.2, by simp, ?_⟩
          intro a ha hb
          simp only [List.map_cons, List.map_nil, List.mem_singleton] at hb
          rw [hb] at ha
          exact hfresh ha
        · intro m toks hdyn
          rw [hdyn] at hseg
          obtain ⟨_, htoks⟩ := Seg.dyn.injEq .. |>.mp hseg.symm
          subst htoks
          rw [alookup_append, hcl]
          simp [alookup]
    · split at h
      · rename_i ctoks hcl
        simp only [Except.ok.injEq, Prod.mk.injEq] at h
        obtain ⟨hseg, hcache⟩ := h
        subst hcache
        refine ⟨hwf, cacheLe_refl cache, ?_⟩
        intro m toks hdyn
        rw [hdyn] at hseg
        obtain ⟨_, htoks⟩ := Seg.dyn.injEq .. |>.mp hseg.symm
        subst htoks
        have hmem := alookup_mem cache (buildSrc toks0) toks hcl
        have hkey := hwf.1 _ hmem
        rw [hkey]
        exact hcl
      · cases h
    · simp only [Except.ok.injEq, Prod.mk.injEq] at h
      obtain ⟨hseg, hcache⟩ := h
      subst hcache
      refine ⟨hwf, cacheLe_refl cache, ?_⟩
      intro m toks hdyn
      rw [hdyn] at hseg
      cases hseg

/-- Cache bookkeeping of the whole component loop. -/
theorem splitPathAux_cache :
    ∀ (parts : List String) (cache cache' : RegexCache)
      (res : Except Err (List Seg)), CacheWF cache →
      splitPathAux cache parts = (cache', res) →
      CacheWF cache' ∧ CacheLe cache cache' ∧
      ∀ segs, res = .ok segs → ∀ m toks, Seg.dyn m toks ∈ segs →
        alookup cache' (buildSrc toks) = some toks := by
  intro parts
  induction parts with
  | nil =>
    intro cache cache' res hwf h
    simp only [splitPathAux, Prod.mk.injEq] at h
    obtain ⟨hc, hr⟩ := h
    subst hc
    refine ⟨hwf, cacheLe_refl cache, ?_⟩
    intro segs hsegs m toks hmem
    rw [← hr] at hsegs
    cases hsegs
    simp at hmem
  | cons p rest ih =>
    intro cache cache' res hwf h
    simp only [splitPathAux] at h
    split at h
    · simp only [Prod.mk.injEq] at h
      obtain ⟨hc, hr⟩ := h
      subst hc
      refine ⟨hwf, cacheLe_refl cache, ?_⟩
      intro segs hsegs
      rw [← hr] at hsegs
      cases hsegs
    · rename_i seg c1 hpart
      obtain ⟨hwf1, hle1, hdyn1⟩ :=
        compilePart_cache cache p rest.isEmpty seg c1 hwf hpart
      split at h
      · rename_i c2 e hrest
        simp only [Prod.mk.injEq] at h
        obtain ⟨hc, hr⟩ := h
        subst hc
        obtain ⟨hwf2, hle2, _⟩ := ih c1 c2 (.error e) hwf1 hrest
        refine ⟨hwf2, cacheLe_trans hle1 hle2, ?_⟩
        intro segs hsegs
        rw [← hr] at hsegs
        cases hsegs
      · rename_i c2 segs2 hrest
        simp only [Prod.mk.injEq] at h
        obtain ⟨hc, hr⟩ := h
        subst hc
        obtain ⟨hwf2, hle2, hdyn2⟩ := ih c1 c2 (.ok segs2) hwf1 hrest
        refine ⟨hwf2, cacheLe_trans hle1 hle2, ?_⟩
        intro segs hsegs m toks hmem
        rw [← hr] at hsegs
        cases hsegs
        rcases List.mem_cons.mp hmem with hmem | hmem
        · exact hle2 _ _ (hdyn1 m toks hmem.symm)
        · exact hdyn2 segs2 rfl m toks hmem

/-- Trie insertion preserves the cache-tied invariant when every inserted
dynamic segment is interned. -/
theorem insertPath_SegOK (c : RegexCache) :
    ∀ (segs : List Seg) (node : PathSegment) (rt : Nat),
      SegOK c node →
      (∀ m toks, Seg.dyn m toks ∈ segs → alookup c (buildSrc toks) = some toks) →
      SegOK c (insertPath node segs rt) := by
  intro segs
  induction segs with
  | nil =>
    intro node rt hok _
    cases node with
    | node st dy rt0 =>
      cases hok with
      | node _ _ _ hst hdy1 hdy2 hnd => exact .node st dy (some rt) hst hdy1 hdy2 hnd
  | cons sg rest ih =>
    intro node rt hok hsegs
    cases node with
    | node st dy rt0 =>
      cases hok with
      | node _ _ _ hst hdy1 hdy2 hnd =>
        have hrest : ∀ m toks, Seg.dyn m toks ∈ rest →
            alookup c (buildSrc toks) = some toks :=
          fun m toks hm => hsegs m toks (List.mem_cons_of_mem _ hm)
        cases sg with
        | static s =>
          simp only [insertPath]
          refine SegOK.node _ _ _ ?_ hdy1 hdy2 hnd
          intro p hp
          rcases mem_aset st s _ p hp with h' | h'
          · rw [h']
            refine ih _ rt ?_ hrest
            cases hcl : alookup st s with
            | some ch =>
              simpa using hst (s, ch) (alookup_mem st s ch hcl)
            | none => exact SegOK_empty c
          · exact hst p h'
        | dyn m toks =>
          simp only [insertPath]
          refine SegOK.node _ _ _ hst ?_ ?_ (aset_keys_nodup dy (m, toks) _ hnd)
          · intro e he
            rcases mem_aset dy (m, toks) _ e he with h' | h'
            · rw [h']
              exact hsegs m toks (List.mem_cons_self _ _)
            · exact hdy1 e h'
          · intro e he
            rcases mem_aset dy (m, toks) _ e he with h' | h'
            · rw [h']
              refine ih _ rt ?_ hrest
              cases hcl : alookup dy (m, toks) with
              | some ch =>
                simpa using hdy2 ((m, toks), ch) (alookup_mem dy (m, toks) ch hcl)
              | none => exact SegOK_empty c
            · exact hdy2 e h'

/-- The per-router invariant of claim C2. -/
def RouterOK (r : Router) : Prop :=
  CacheWF r.reCache ∧
  ∀ m root, alookup r.routes m = some root → SegOK r.reCache root

/-- A fresh router satisfies the invariant. -/
theorem RouterOK_new : RouterOK Router.new := by
  refine ⟨⟨?_, ?_⟩, ?_⟩
  · intro e he
    simp [Router.new] at he
  · simp [Router.new]
  · intro m root h
    simp [Router.new, alookup] at h

/-- Every `register` call — raising or not — preserves the invariant. -/
theorem register_RouterOK (r : Router) (path : String) (rt : Nat)
    (name : Option String) (method : String) (h : RouterOK r) :
    RouterOK (Router.register r path rt name method).1 := by
  obtain ⟨hwf, hroots⟩ := h
  simp only [Router.register]
  cases hsp : splitPath r.reCache path with
  | mk cacheN res =>
    have hsp' : splitPathAux r.reCache (splitSlash path) = (cacheN, res) := hsp
    obtain ⟨hwf', hle, hdynsegs⟩ :=
      splitPathAux_cache (splitSlash path) r.reCache cacheN res hwf hsp'
    have hroot : SegOK cacheN
        ((alookup r.routes (toUpperStr method)).getD emptyNode) := by
      cases hcl : alookup r.routes (toUpperStr method) with
      | some root0 => simpa using SegOK_mono hle root0 (hroots _ root0 hcl)
      | none => exact SegOK_empty cacheN
    cases res with
    | error e =>
      refine ⟨hwf', ?_⟩
      intro m1 root1 hlk
      have hlk2 : alookup (aset r.routes (toUpperStr method)
          ((alookup r.routes (toUpperStr method)).getD emptyNode)) m1 =
          some root1 := hlk
      by_cases hm : m1 = toUpperStr method
      · subst hm
        rw [alookup_aset_self] at hlk2
        cases hlk2
        exact hroot
      · rw [alookup_aset_ne _ _ _ _ hm] at hlk2
        exact SegOK_mono hle root1 (hroots m1 root1 hlk2)
    | ok segs =>
      refine ⟨hwf', ?_⟩
      intro m1 root1 hlk
      have hlk2 : alookup (aset r.routes (toUpperStr method)
          (insertPath ((alookup r.routes (toUpperStr method)).getD emptyNode)
            segs rt)) m1 = some root1 := hlk
      by_cases hm : m1 = toUpperStr method
      · subst hm
        rw [alookup_aset_self] at hlk2
        cases hlk2
        exact insertPath_SegOK cacheN segs _ rt hroot (hdynsegs segs rfl)
      · rw [alookup_aset_ne _ _ _ _ hm] at hlk2
        exact SegOK_mono hle root1 (hroots m1 root1 hlk2)

/-- The invariant holds after any sequence of `register` calls. -/
theorem foldl_RouterOK :
    ∀ (cs : List RegCall) (r : Router), RouterOK r →
      RouterOK (cs.foldl
        (fun r c => (Router.register r c.path c.route c.name c.method).1) r) := by
  intro cs
  induction cs with
  | nil => intro r h; exact h
  | cons c t ih =>
    intro r h
    exact ih _ (register_RouterOK r c.path c.route c.name c.method h)

/-- Claim C2: regex-cache structural sharing.  For every router built by
any sequence of `register` calls, the regex cache is a well-formed
dictionary (`CacheWF`), every dynamic edge of every per-method trie is
keyed by exactly the cache entry interned under its regex source text
(`SegOK`), and consequently every trie node has at most one dynamic edge
per distinct `(matchall, pattern source)` pair (`DSN`) — re-registering a
template whose segment pattern is already used at a position extends the
existing branch rather than creating a duplicate parallel one. -/
theorem claim_c2 (calls : List RegCall) (m : String) (root : PathSegment)
    (h : alookup (buildRouter calls).routes m = some root) :
    CacheWF (buildRouter calls).reCache ∧
    SegOK (buildRouter calls).reCache root ∧ DSN root := by
  have hok : RouterOK (buildRouter calls) := foldl_RouterOK calls Router.new RouterOK_new
  have hseg := hok.2 m root h
  exact ⟨hok.1, hseg, SegOK_DSN _ root hseg⟩

/-- The registration sequence of the witness: two templates sharing the
dynamic segment `<id:int>` at the same trie position. -/
def c2calls : List RegCall :=
  [⟨"/a/<id:int>/x", 1, none, "GET"⟩, ⟨"/a/<id:int>/y", 2, none, "GET"⟩]

/-- The GET root of the witness router. -/
def c2root : PathSegment :=
  (alookup (buildRouter c2calls).routes "GET").getD emptyNode

/-- Witness for C2: the invariant at the router holding two templates
with a shared `<id:int>` segment. -/
theorem claim_c2_witness :
    CacheWF (buildRouter c2calls).reCache ∧
    SegOK (buildRouter c2calls).reCache c2root ∧ DSN c2root :=
  claim_c2 c2calls "GET" c2root rfl
